import Mathlib

/-!
Shallow embedding of the checkpoint / delta-map cache protocol of
`relstorage/cache/storage_cache.py` (class `StorageCache`), together with
theorems settling the frozen claims about it.

Modelling conventions:

* Python byte strings are `List Nat`, one `Nat` per byte.
* Python `None`-able values are `Option _`.  Python truthiness of a bytes
  value is "present and nonempty"; of an integer, "present and nonzero".
* A cache tier (one entry of `clients_local_first`) is an association list
  `String × Bytes`; the tier list is kept in local-first order, and the
  global-first order used by the checkpoint bookkeeping is its reverse.
* Exceptions are modelled with `Except PyErr`.  `PyErr.cacheInconsistency`
  stands for the `AssertionError` raised by `_check_tid_after_load` (the
  spec's "CacheInconsistency"), `PyErr.assertionError` for the bare
  `assert` in the hot branch of `load`, `PyErr.typeError` for the failed
  unpacking of `self.checkpoints` when it is `None`, `PyErr.valueError`
  for `int()` parse failures, and `PyErr.truncated` for the
  "Queued cache data is truncated" `AssertionError`.
* The adapter collaborator is a function parameter: `load_current` maps an
  oid to `(state, tid)`, `list_changes` maps `(after_tid, last_tid)` to a
  change list.  The cursor argument carries no information at this level
  and is dropped.
* `tid` values are the nonnegative 64-bit integers of the spec, so the
  checkpoint-marker codec parses unsigned decimal numerals.
* The field `prefix` of the source is named `pfx` here.
-/

namespace StorageCache

abbrev Bytes := List Nat

/-- Big-endian 8-byte encoding of a transaction id (`ZODB.utils.p64`). -/
def p64 (n : Nat) : Bytes :=
  [n / 256 ^ 7 % 256, n / 256 ^ 6 % 256, n / 256 ^ 5 % 256, n / 256 ^ 4 % 256,
   n / 256 ^ 3 % 256, n / 256 ^ 2 % 256, n / 256 % 256, n % 256]

/-- Reads the first 8 bytes as a big-endian integer (`ZODB.utils.u64`). -/
def u64 (b : Bytes) : Nat := (b.take 8).foldl (fun a c => a * 256 + c) 0

/-- Association-list lookup (Python `dict.get` / `BTree.get`). -/
def alookup {α β : Type} [DecidableEq α] : List (α × β) → α → Option β
  | [], _ => none
  | p :: rest, k => if p.1 = k then some p.2 else alookup rest k

/-- Insert-or-replace (Python `m[k] = v`). -/
def upsert {α β : Type} [DecidableEq α] : List (α × β) → α → β → List (α × β)
  | [], k, v => [(k, v)]
  | p :: rest, k, v => if p.1 = k then (k, v) :: rest else p :: upsert rest k v

/-- Remove a key from an association list (used to compare a zero-valued
delta entry with true absence of the key). -/
def erase_key {β : Type} (m : List (Nat × β)) (k : Nat) : List (Nat × β) :=
  m.filter (fun p => decide (p.1 ≠ k))

/-- Python exception kinds raised by the modelled code paths. -/
inductive PyErr where
  | readConflict
  | cacheInconsistency
  | typeError
  | assertionError
  | valueError
  | truncated
deriving DecidableEq, Repr

/-- One cache tier: a mutable `key → value` store. -/
abbrev Tier := List (String × Bytes)

/-- Broadcast a `set` to every tier (loops like
`for client in self.clients_local_first: client.set(key, value)`;
the final contents do not depend on the iteration order). -/
def set_all (tiers : List Tier) (k : String) (v : Bytes) : List Tier :=
  tiers.map (fun t => upsert t k v)

/-- The cache-key codec: `'%s:state:%d:%d' % (prefix, tid_int, oid_int)`. -/
def state_key (pfx : String) (tid_int oid_int : Nat) : String :=
  pfx ++ ":state:" ++ toString tid_int ++ ":" ++ toString oid_int

/-- The well-known checkpoints key: `'%s:checkpoints' % self.prefix`. -/
def checkpoints_key (pfx : String) : String := pfx ++ ":checkpoints"

/-- ASCII bytes of a string (`str.encode('ascii')`). -/
def ascii (s : String) : Bytes := s.toList.map Char.toNat

/-- The checkpoint-marker payload `'%d %d' % (cp0, cp1)` as ASCII bytes. -/
def encode_checkpoints (cp0 cp1 : Nat) : Bytes :=
  ascii (toString cp0 ++ " " ++ toString cp1)

/-- ASCII whitespace, the separator class of Python `bytes.split()`. -/
def isSpaceByte (b : Nat) : Bool :=
  b = 32 || b = 9 || b = 10 || b = 11 || b = 12 || b = 13

/-- Helper for `splitWs`: accumulates the current (reversed) token. -/
def splitWsAux : Bytes → Bytes → List Bytes
  | [], acc => if acc = [] then [] else [acc.reverse]
  | b :: rest, acc =>
    if isSpaceByte b then
      if acc = [] then splitWsAux rest [] else acc.reverse :: splitWsAux rest []
    else splitWsAux rest (b :: acc)

/-- Python `bytes.split()` with no argument: split on whitespace runs,
dropping empty tokens. -/
def splitWs (b : Bytes) : List Bytes := splitWsAux b []

/-- Parse an unsigned decimal numeral (the `int(...)` calls applied to
checkpoint-marker tokens; tids are unsigned, see the header note). -/
def parseDigits (b : Bytes) : Option Nat :=
  if b = [] then none
  else if b.all (fun c => decide (48 ≤ c ∧ c ≤ 57)) then
    some (b.foldl (fun a c => a * 10 + (c - 48)) 0)
  else none

/-- Parse a checkpoints marker: `c0, c1 = s.split(); int(c0); int(c1)`,
yielding `none` where the source catches `ValueError`. -/
def parse_checkpoints (s : Bytes) : Option (Nat × Nat) :=
  match splitWs s with
  | [a, b] =>
    match parseDigits a, parseDigits b with
    | some c0, some c1 => some (c0, c1)
    | _, _ => none
  | _ => none

/-- The marker read loop at the top of `after_poll`: the first tier (in the
order given, which the caller takes global-first) whose value is truthy,
parses, and satisfies `c0 >= c1` supplies the proposal. -/
def marker_scan (key : String) : List Tier → Option (Nat × Nat)
  | [] => none
  | t :: rest =>
    match alookup t key with
    | some s =>
      if s ≠ [] then
        match parse_checkpoints s with
        | some (c0, c1) =>
          if c1 ≤ c0 then some (c0, c1) else marker_scan key rest
        | none => marker_scan key rest
      else marker_scan key rest
    | none => marker_scan key rest

/-- The raw marker read loop of `_suggest_shifted_checkpoints`: the first
truthy value wins, with no parsing. -/
def raw_marker_scan (key : String) : List Tier → Option Bytes
  | [] => none
  | t :: rest =>
    match alookup t key with
    | some s => if s ≠ [] then some s else raw_marker_scan key rest
    | none => raw_marker_scan key rest

/-- The per-instance mutable state of `StorageCache` that the claims are
about (`checkpoints`, the two delta maps, `current_tid`), plus the
configuration the methods read (`prefix`, `delta_size_limit`). -/
structure CacheState where
  pfx : String
  checkpoints : Option (Nat × Nat)
  delta_after0 : List (Nat × Nat)
  delta_after1 : List (Nat × Nat)
  current_tid : Nat
  delta_size_limit : Nat
deriving DecidableEq, Repr

/-- `StorageCache._check_tid_after_load`.  The `oid_int` argument feeds only
the diagnostic message in the source and is unused here; note that the
mismatch branch unpacks `self.checkpoints` (for the message), which raises
`TypeError` when no checkpoints are set. -/
def check_tid_after_load (st : CacheState) (oid_int actual_tid_int : Nat)
    (expect_tid_int : Option Nat) : Except PyErr Unit :=
  let _ := oid_int
  if st.current_tid < actual_tid_int then .error .readConflict
  else
    match expect_tid_int with
    | some e =>
      if actual_tid_int ≠ e then
        match st.checkpoints with
        | some _ => .error .cacheInconsistency
        | none => .error .typeError
      else .ok ()
    | none => .ok ()

/-- `StorageCache._from_state_key`.  `key.split(':')` must have exactly four
parts for the `(None, None)` sentinel to be avoided; with four parts the
source calls `int(...)` unguarded, so a non-numeral part raises
`ValueError`.  The sentinel is modelled as `Option.none`, a parsed pair as
`some (tid, oid)` (ints, since Python `int` accepts signed numerals). -/
def pyInt (s : String) : Option Int :=
  let digits : List Char → Option Nat := fun cs =>
    if cs = [] then none
    else if cs.all Char.isDigit then
      some (cs.foldl (fun a c => a * 10 + (c.toNat - 48)) 0)
    else none
  match s.toList with
  | '-' :: rest => (digits rest).map (fun n => -(n : Int))
  | '+' :: rest => (digits rest).map (fun n => (n : Int))
  | cs => (digits cs).map (fun n => (n : Int))

/-- Python `str.split(sep)` for a single-character separator, keeping empty
parts (`'a::b'.split(':') == ['a', '', 'b']`). -/
def splitCharAux (sep : Char) : List Char → List Char → List String
  | [], acc => [String.mk acc.reverse]
  | c :: rest, acc =>
    if c = sep then String.mk acc.reverse :: splitCharAux sep rest []
    else splitCharAux sep rest (c :: acc)

def splitChar (sep : Char) (s : String) : List String := splitCharAux sep s.toList []

def from_state_key (key : String) : Except PyErr (Option (Int × Int)) :=
  match splitChar ':' key with
  | [_, _, c, d] =>
    match pyInt c, pyInt d with
    | some tid, some oid => .ok (some (tid, oid))
    | _, _ => .error .valueError
  | _ => .ok none

/-! ## The load path (`StorageCache.load`) -/

instance {ε α : Type} [DecidableEq ε] [DecidableEq α] : DecidableEq (Except ε α) := fun a b =>
  match a, b with
  | .error e, .error f =>
    if h : e = f then isTrue (by subst h; rfl) else isFalse (fun hh => h (Except.error.inj hh))
  | .error _, .ok _ => isFalse (fun hh => Except.noConfusion hh)
  | .ok _, .error _ => isFalse (fun hh => Except.noConfusion hh)
  | .ok x, .ok y =>
    if h : x = y then isTrue (by subst h; rfl) else isFalse (fun hh => h (Except.ok.inj hh))

/-- Result of one `load` call: the returned `(state, tid)` pair or the
exception, the cache keys queried (in query order, one entry per key per
`get`/`get_multi` call), and the tier writes performed, as
`(tier index in clients_local_first, key, value)` in execution order. -/
structure LoadOut where
  result : Except PyErr (Option Bytes × Nat)
  probed : List String
  writes : List (Nat × String × Bytes)
deriving DecidableEq, Repr

/-- Apply a write log to the tier list. -/
def apply_writes (tiers : List Tier) (ws : List (Nat × String × Bytes)) : List Tier :=
  ws.foldl (fun ts w => ts.mapIdx (fun i t => if i = w.1 then upsert t w.2.1 w.2.2 else t)) tiers

/-- The `delta_after0` hit loop of `load`: probe each tier with `get(key)`;
a response qualifies when it is truthy and at least 8 bytes long.  Returns
the qualifying data (if any) and the number of tiers probed. -/
def hot_scan (key : String) : List Tier → Option Bytes × Nat
  | [] => (none, 0)
  | t :: rest =>
    match alookup t key with
    | some d =>
      if 8 ≤ d.length then (some d, 1)
      else
        let r := hot_scan key rest
        (r.1, r.2 + 1)
    | none =>
      let r := hot_scan key rest
      (r.1, r.2 + 1)

/-- `client.get_multi(keys)`: the sub-map of keys the tier holds. -/
def get_multi (t : Tier) (keys : List String) : List (String × Bytes) :=
  keys.filterMap (fun k => (alookup t k).map (fun v => (k, v)))

/-- A hit in the checkpoint-key loop of `load`: either on the preferred
`cp0` key (recording which tier answered) or on the older
(`delta_after1` / `cp1`) key. -/
inductive CpHit where
  | cp0 (idx : Nat) (d : Bytes)
  | older (idx : Nat) (d : Bytes)
deriving DecidableEq, Repr

/-- Within one `get_multi` response, the fallback lookup of the older key
(`da1_key` if set, else `cp1_key` if set). -/
def older_hit (resp : List (String × Bytes)) (second : Option String) (idx : Nat) :
    Option CpHit :=
  match second with
  | some k =>
    match alookup resp k with
    | some d => if 8 ≤ d.length then some (.older idx d) else none
    | none => none
  | none => none

/-- The checkpoint-key loop of `load`: issue `get_multi` per tier
(local-first); on a non-empty response prefer `cp0_key`, else the older
key; otherwise move to the next tier.  Returns the hit (if any) and the
number of tiers probed. -/
def cp_scan (keys : List String) (cp0_key : String) (second : Option String) :
    Nat → List Tier → Option CpHit × Nat
  | _, [] => (none, 0)
  | idx, t :: rest =>
    let resp := get_multi t keys
    let hit : Option CpHit :=
      if resp = [] then none
      else
        match alookup resp cp0_key with
        | some d => if 8 ≤ d.length then some (.cp0 idx d) else older_hit resp second idx
        | none => older_hit resp second idx
    match hit with
    | some h => (some h, 1)
    | none =>
      let r := cp_scan keys cp0_key second (idx + 1) rest
      (r.1, r.2 + 1)

/-- `StorageCache.load(cursor, oid_int)`.  `load_current` is the adapter's
`mover.load_current` with the cursor dropped. -/
def load (st : CacheState) (tiers : List Tier)
    (load_current : Nat → Option Bytes × Nat) (oid_int : Nat) : LoadOut :=
  match st.checkpoints with
  | none =>
    -- No poll has occurred yet; bypass the cache.
    { result := .ok (load_current oid_int), probed := [], writes := [] }
  | some (cp0, cp1) =>
    let hot0 : Option Nat :=
      match alookup st.delta_after0 oid_int with
      | some t => if t ≠ 0 then some t else none
      | none => none
    match hot0 with
    | some tid_int =>
      -- The object changed after checkpoint0: the exact key is the only
      -- legal place to look.
      let cachekey := state_key st.pfx tid_int oid_int
      let scan := hot_scan cachekey tiers
      match scan.1 with
      | some cache_data =>
        { result :=
            if cache_data.take 8 = p64 tid_int then
              .ok (some (cache_data.drop 8), tid_int)
            else .error .assertionError,
          probed := List.replicate scan.2 cachekey,
          writes := [] }
      | none =>
        let r := load_current oid_int
        match check_tid_after_load st oid_int r.2 (some tid_int) with
        | .error e =>
          { result := .error e, probed := List.replicate scan.2 cachekey, writes := [] }
        | .ok _ =>
          let cache_data := p64 tid_int ++ r.1.getD []
          { result := .ok (r.1, tid_int),
            probed := List.replicate scan.2 cachekey,
            writes := (List.range tiers.length).map (fun i => (i, cachekey, cache_data)) }
    | none =>
      let cp0_key := state_key st.pfx cp0 oid_int
      let hot1 : Option Nat :=
        match alookup st.delta_after1 oid_int with
        | some t => if t ≠ 0 then some t else none
        | none => none
      let second : Option String :=
        match hot1 with
        | some t1 => some (state_key st.pfx t1 oid_int)
        | none => if cp1 ≠ cp0 then some (state_key st.pfx cp1 oid_int) else none
      let cachekeys := cp0_key :: (match second with | some k => [k] | none => [])
      let scan := cp_scan cachekeys cp0_key second 0 tiers
      let probed := (List.replicate scan.2 cachekeys).flatten
      match scan.1 with
      | some (.cp0 idx d) =>
        -- Hit on the preferred key; copy to the local tier if a farther
        -- tier answered.
        { result := .ok (some (d.drop 8), u64 d),
          probed := probed,
          writes := if idx ≠ 0 then [(0, cp0_key, d)] else [] }
      | some (.older _ d) =>
        -- Hit on the older key; promote the value to the preferred key in
        -- every tier.
        { result := .ok (some (d.drop 8), u64 d),
          probed := probed,
          writes := (List.range tiers.length).map (fun i => (i, cp0_key, d)) }
      | none =>
        let r := load_current oid_int
        if r.2 ≠ 0 then
          match check_tid_after_load st oid_int r.2 none with
          | .error e => { result := .error e, probed := probed, writes := [] }
          | .ok _ =>
            let cache_data := p64 r.2 ++ r.1.getD []
            { result := .ok (r.1, r.2),
              probed := probed,
              writes := (List.range tiers.length).map (fun i => (i, cp0_key, cache_data)) }
        else { result := .ok (r.1, r.2), probed := probed, writes := [] }

/-! ## The poll path (`StorageCache.after_poll` and
`StorageCache._suggest_shifted_checkpoints`) -/

/-- `_suggest_shifted_checkpoints(tid_int, oversize)`.  The source reads
`cp0, _cp1 = self.checkpoints` (a `TypeError` if no checkpoints are set),
never mutates the instance state, and publishes the proposal exactly when
the first truthy marker read global-first is absent or equals the encoding
of the current checkpoints.  Returns the (unchanged) state, the tiers, and
whether the proposal was published. -/
def suggest_shifted_checkpoints (st : CacheState) (tiers : List Tier)
    (tid_int : Nat) (oversize : Bool) :
    Except PyErr (CacheState × List Tier × Bool) :=
  match st.checkpoints with
  | none => .error .typeError
  | some (cp0, cp1) =>
    if tid_int ≤ cp0 then .ok (st, tiers, false)
    else
      let expect := encode_checkpoints cp0 cp1
      let change_to :=
        if oversize then encode_checkpoints tid_int tid_int
        else encode_checkpoints tid_int cp0
      let ckey := checkpoints_key st.pfx
      let old_value := raw_marker_scan ckey tiers.reverse
      if old_value = none ∨ old_value = some expect then
        .ok (st, set_all tiers ckey change_to, true)
      else .ok (st, tiers, false)

/-- Which branch of `after_poll` ran: the adopt/initialize branch taken
when no tier yields a valid marker, the fast path, or the rebuild path. -/
inductive PollPath where
  | init
  | fast
  | rebuild
deriving DecidableEq, Repr

structure PollOut where
  st : CacheState
  tiers : List Tier
  path : PollPath
  suggested : Bool
deriving DecidableEq, Repr

/-- The fast-path update loop: for each `(oid_int, tid_int)` in `changes`,
store `tid_int` when the map has no entry or a smaller one. -/
def apply_changes_max : List (Nat × Nat) → List (Nat × Nat) → List (Nat × Nat)
  | m, [] => m
  | m, p :: rest =>
    let m' :=
      match alookup m p.1 with
      | none => upsert m p.1 p.2
      | some c => if c < p.2 then upsert m p.1 p.2 else m
    apply_changes_max m' rest

/-- Specification function for the fast-path merge: the tids that
`changes` carries for one oid, in delivery order. -/
def change_tids (chs : List (Nat × Nat)) (oid : Nat) : List Nat :=
  (chs.filter (fun p => decide (p.1 = oid))).map (fun p => p.2)

/-- Specification function for the fast-path merge: the resulting
`delta_after0` entry for one oid — unchanged when no change mentions the
oid, otherwise the maximum of the old entry (0 when absent) and the
delivered tids. -/
def fast_lookup_spec (old : Option Nat) (ts : List Nat) : Option Nat :=
  match ts with
  | [] => old
  | _ :: _ => some (ts.foldl Nat.max (old.getD 0))

/-- Stable insertion into a sorted list: the new element goes before the
first element it is `le` to, hence after any equal earlier elements. -/
def insertSorted {α : Type} (le : α → α → Bool) (x : α) : List α → List α
  | [] => [x]
  | y :: rest => if le x y then x :: y :: rest else y :: insertSorted le x rest

/-- A stable sort (insertion sort), modelling Python's stable
`sorted` / `list.sort`.  On the total, tie-antisymmetric tuple orders used
here its output is the unique sorted permutation. -/
def sortBy {α : Type} (le : α → α → Bool) : List α → List α
  | [] => []
  | x :: rest => insertSorted le x (sortBy le rest)

/-- Lexicographic order on `(oid, tid)` pairs (Python tuple `sorted`). -/
def pair_le (a b : Nat × Nat) : Bool :=
  decide (a.1 < b.1) || (decide (a.1 = b.1) && decide (a.2 ≤ b.2))

/-- `change_dict`: a map built from the ascending-sorted change list, so
the last (largest) tid for each oid wins. -/
def build_change_dict (l : List (Nat × Nat)) : List (Nat × Nat) :=
  (sortBy pair_le l).foldl (fun m p => upsert m p.1 p.2) []

/-- The rebuild partition loop: each change goes to `new_delta_after0` if
`tid_int > cp0`, else to `new_delta_after1` if `tid_int > cp1`, else
nowhere. -/
def partition_deltas (cp0 cp1 : Nat) :
    List (Nat × Nat) → List (Nat × Nat) × List (Nat × Nat) → List (Nat × Nat) × List (Nat × Nat)
  | [], acc => acc
  | p :: rest, acc =>
    if cp0 < p.2 then partition_deltas cp0 cp1 rest (upsert acc.1 p.1 p.2, acc.2)
    else if cp1 < p.2 then partition_deltas cp0 cp1 rest (acc.1, upsert acc.2 p.1 p.2)
    else partition_deltas cp0 cp1 rest acc

/-- The tail of `after_poll` once the instance state `stp.1` has been
installed: when shifting is allowed and `delta_after0` reached
`delta_size_limit`, invoke `_suggest_shifted_checkpoints` (which only
writes tiers; the error branch is unreachable because both poll branches
set checkpoints). -/
def poll_finish (st : CacheState) (tiers : List Tier) (new_tid : Nat)
    (allow_shift : Bool) (stp : CacheState × PollPath) : PollOut :=
  let st1 := stp.1
  if allow_shift = true ∧ st.delta_size_limit ≤ st1.delta_after0.length then
    let oversize := decide (st.delta_size_limit * 2 ≤ st1.delta_after0.length)
    match suggest_shifted_checkpoints st1 tiers new_tid oversize with
    | .ok (_, tiers2, _) =>
      { st := st1, tiers := tiers2, path := stp.2, suggested := true }
    | .error _ =>
      { st := st1, tiers := tiers, path := stp.2, suggested := true }
  else { st := st1, tiers := tiers, path := stp.2, suggested := false }

/-- `StorageCache.after_poll(cursor, prev_tid_int, new_tid_int, changes)`.
`list_changes` is the adapter's `poller.list_changes` with the cursor
dropped.  Python truthiness of `prev_tid_int` (`None` and `0` both falsy)
is modelled by `prev_tid.getD 0 ≠ 0`. -/
def after_poll (st : CacheState) (tiers : List Tier)
    (list_changes : Nat → Nat → List (Nat × Nat))
    (prev_tid : Option Nat) (new_tid : Nat)
    (changes : Option (List (Nat × Nat))) : PollOut :=
  let ckey := checkpoints_key st.pfx
  match marker_scan ckey tiers.reverse with
  | none =>
    -- No valid proposal anywhere: adopt (new_tid, new_tid) locally, write
    -- out the previous checkpoints when the instance had some (to
    -- reinstate them), and return before the shift check.
    let cache_data :=
      match st.checkpoints with
      | none => encode_checkpoints new_tid new_tid
      | some (c0, c1) => encode_checkpoints c0 c1
    { st := { st with checkpoints := some (new_tid, new_tid),
                      delta_after0 := [], delta_after1 := [],
                      current_tid := new_tid },
      tiers := set_all tiers ckey cache_data,
      path := .init, suggested := false }
  | some found =>
    let guard := new_tid < found.1
    -- checkpoint0 in a future this instance cannot see yet: keep ours.
    let ncps := if guard then st.checkpoints.getD (new_tid, new_tid) else found
    let allow_shift := !guard
    let stp : CacheState × PollPath :=
      if some ncps = st.checkpoints ∧ changes ≠ none ∧ prev_tid.getD 0 ≠ 0 ∧
          prev_tid.getD 0 ≤ st.current_tid ∧ st.current_tid ≤ new_tid then
        ({ st with delta_after0 := apply_changes_max st.delta_after0 (changes.getD []),
                   current_tid := new_tid }, .fast)
      else
        let deltas :=
          if ncps.2 < new_tid then
            partition_deltas ncps.1 ncps.2
              (build_change_dict (list_changes ncps.2 new_tid)) ([], [])
          else ([], [])
        ({ st with checkpoints := some ncps, delta_after0 := deltas.1,
                   delta_after1 := deltas.2, current_tid := new_tid }, .rebuild)
    poll_finish st tiers new_tid allow_shift stp

/-- One `after_poll` call in a sequence: its own change-listing adapter and
arguments. -/
structure PollCall where
  list_changes : Nat → Nat → List (Nat × Nat)
  prev_tid : Option Nat
  new_tid : Nat
  changes : Option (List (Nat × Nat))

/-- Iterate `after_poll` over a sequence of polls; the Boolean records
whether every poll in the sequence took the fast path. -/
def poll_seq (st : CacheState) (tiers : List Tier) :
    List PollCall → CacheState × List Tier × Bool
  | [] => (st, tiers, true)
  | c :: rest =>
    let out := after_poll st tiers c.list_changes c.prev_tid c.new_tid c.changes
    let r := poll_seq out.st out.tiers rest
    (r.1, r.2.1, decide (out.path = PollPath.fast) && r.2.2)

/-! ## The write path (`send_queue`, `after_tpc_finish`) -/

/-- `_read_temp_state(startpos, endpos)`: read the byte range; a short read
is the "Queued cache data is truncated" assertion. -/
def read_temp_state (queue : Bytes) (startpos endpos : Nat) : Except PyErr Bytes :=
  let state := (queue.drop startpos).take (endpos - startpos)
  if state.length = endpos - startpos then .ok state else .error .truncated

/-- Lexicographic order on the `(startpos, endpos, oid_int)` triples that
`send_queue` sorts (Python tuple `sort`). -/
def triple_le (a b : Nat × Nat × Nat) : Bool :=
  decide (a.1 < b.1) ||
    (decide (a.1 = b.1) &&
      (decide (a.2.1 < b.2.1) || (decide (a.2.1 = b.2.1) && decide (a.2.2 ≤ b.2.2))))

/-- One queue item turned into its outgoing cache entry
`(cachekey, tid + state)` plus its accounted size
`item_size = length + len(cachekey)`. -/
def send_entry (pfx : String) (queue : Bytes) (tid : Bytes) (it : Nat × Nat × Nat) :
    Except PyErr ((String × Bytes) × Nat) :=
  match read_temp_state queue it.1 it.2.1 with
  | .error e => .error e
  | .ok state =>
    let cachekey := state_key pfx (u64 tid) it.2.2
    .ok ((cachekey, tid ++ state), state.length + cachekey.length)

/-- The batching loop of `send_queue`: before adding an item, flush the
accumulated batch when it is non-empty and the running total plus the item
reaches `send_limit`; flush any remainder at the end. -/
def send_loop (limit : Nat) (pfx : String) (queue : Bytes) (tid : Bytes) :
    List (Nat × Nat × Nat) → List (List (String × Bytes)) → List (String × Bytes) → Nat →
    Except PyErr (List (List (String × Bytes)))
  | [], flushed, cur, _ => .ok (if cur = [] then flushed else flushed ++ [cur])
  | it :: rest, flushed, cur, send_size =>
    match send_entry pfx queue tid it with
    | .error e => .error e
    | .ok (entry, item_size) =>
      if send_size ≠ 0 ∧ limit ≤ send_size + item_size then
        send_loop limit pfx queue tid rest (flushed ++ [cur]) [entry] item_size
      else
        send_loop limit pfx queue tid rest flushed (cur ++ [entry]) (send_size + item_size)

/-- The accounted size of an outgoing entry:
`item_size = length + len(cachekey)` where `length` is the state length
(the stored value is `tid ++ state` with an 8-byte tid). -/
def entry_size (e : String × Bytes) : Nat := (e.2.length - 8) + e.1.length

/-- The outgoing cache entry a queue item `(startpos, endpos, oid)` is
encoded to when its read succeeds. -/
def queued_entry (pfx : String) (queue : Bytes) (tid : Bytes) (it : Nat × Nat × Nat) :
    String × Bytes :=
  (state_key pfx (u64 tid) it.2.2, tid ++ (queue.drop it.1).take (it.2.1 - it.1))

/-- Modelled from the claim's words (amended): greedy batching — before
adding an item, flush the open batch when it is non-empty and the running
total plus the item's size reaches the limit; emit any remainder.  Used as
the reference the source's `send_loop` is proved equal to. -/
def chunk_loop (limit : Nat) (size : (String × Bytes) → Nat) :
    List (String × Bytes) → List (String × Bytes) → Nat → List (List (String × Bytes))
  | [], cur, _ => if cur = [] then [] else [cur]
  | e :: rest, cur, s =>
    if s ≠ 0 ∧ limit ≤ s + size e then cur :: chunk_loop limit size rest [e] (size e)
    else chunk_loop limit size rest (cur ++ [e]) (s + size e)

structure SendOut where
  batches : List (List (String × Bytes))
  tiers : List Tier
deriving DecidableEq, Repr

/-- Apply each flushed batch to every tier (`set_multi` broadcast,
local-first; the final contents do not depend on the tier order). -/
def apply_batches (tiers : List Tier) (bs : List (List (String × Bytes))) : List Tier :=
  bs.foldl (fun ts b => b.foldl (fun ts p => set_all ts p.1 p.2) ts) tiers

/-- `StorageCache.send_queue(tid)`.  `queue_contents` is the
`{oid_int: (startpos, endpos)}` map as an `(oid, startpos, endpos)` list;
the items are sorted by file position before batching. -/
def send_queue (pfx : String) (limit : Nat) (tiers : List Tier) (queue : Bytes)
    (queue_contents : List (Nat × Nat × Nat)) (tid : Bytes) : Except PyErr SendOut :=
  let items := sortBy triple_le (queue_contents.map (fun q => (q.2.1, q.2.2, q.1)))
  match send_loop limit pfx queue tid items [] [] 0 with
  | .error e => .error e
  | .ok batches => .ok { batches := batches, tiers := apply_batches tiers batches }

/-- `StorageCache.after_tpc_finish(tid)`: when checkpoints are set, point
`delta_after0[oid_int]` at the just-committed tid for every queued oid,
then send the queue. -/
def after_tpc_finish (st : CacheState) (tiers : List Tier) (queue : Bytes)
    (queue_contents : List (Nat × Nat × Nat)) (limit : Nat) (tid : Bytes) :
    CacheState × Except PyErr SendOut :=
  let tid_int := u64 tid
  let st' :=
    match st.checkpoints with
    | some _ =>
      { st with delta_after0 :=
          queue_contents.foldl (fun m q => upsert m q.1 tid_int) st.delta_after0 }
    | none => st
  (st', send_queue st.pfx limit tiers queue queue_contents tid)

/-- The windowing invariant of the spec: with checkpoints `(cp0, cp1)` set,
every `delta_after0` value exceeds `cp0` and every `delta_after1` value
lies in `(cp1, cp0]`. -/
def window_ok (st : CacheState) : Bool :=
  match st.checkpoints with
  | none => true
  | some (cp0, cp1) =>
    st.delta_after0.all (fun p => decide (cp0 < p.2)) &&
      st.delta_after1.all (fun p => decide (cp1 < p.2 ∧ p.2 ≤ cp0))

/-! ## Helper lemmas -/

theorem alookup_upsert_self {α β : Type} [DecidableEq α] (m : List (α × β)) (k : α) (v : β) :
    alookup (upsert m k v) k = some v := by
  induction m with
  | nil => simp [upsert, alookup]
  | cons p rest ih =>
    by_cases h : p.1 = k
    · simp [upsert, h, alookup]
    · simp [upsert, h, alookup, ih]

theorem alookup_upsert_ne {α β : Type} [DecidableEq α] (m : List (α × β)) (k k' : α) (v : β)
    (h : k' ≠ k) : alookup (upsert m k v) k' = alookup m k' := by
  have hs : ¬ (k = k') := fun hh => h hh.symm
  induction m with
  | nil => simp [upsert, alookup, hs]
  | cons p rest ih =>
    by_cases hp : p.1 = k
    · subst hp
      simp [upsert, alookup, hs]
    · simp only [upsert, if_neg hp, alookup]
      by_cases hp' : p.1 = k'
      · simp [hp']
      · simp [hp', ih]

theorem mem_upsert {α β : Type} [DecidableEq α] (m : List (α × β)) (k : α) (v : β)
    (p : α × β) (h : p ∈ upsert m k v) : p ∈ m ∨ p = (k, v) := by
  induction m with
  | nil => simpa [upsert] using h
  | cons q rest ih =>
    by_cases hq : q.1 = k
    · simp only [upsert, hq, if_pos rfl] at h
      rcases List.mem_cons.1 h with h | h
      · exact Or.inr h
      · exact Or.inl (List.mem_cons_of_mem _ h)
    · simp only [upsert, hq, if_neg hq] at h
      rcases List.mem_cons.1 h with h | h
      · exact Or.inl (List.mem_cons.2 (Or.inl h))
      · rcases ih h with h | h
        · exact Or.inl (List.mem_cons_of_mem _ h)
        · exact Or.inr h

theorem alookup_erase_key {β : Type} (m : List (Nat × β)) (k : Nat) :
    alookup (erase_key m k) k = none := by
  induction m with
  | nil => simp [erase_key, alookup]
  | cons p rest ih =>
    by_cases h : p.1 = k
    · simpa [erase_key, h] using ih
    · simpa [erase_key, alookup, h] using ih

theorem p64_length (n : Nat) : (p64 n).length = 8 := by simp [p64]

theorem take_p64_append (n : Nat) (s : Bytes) : (p64 n ++ s).take 8 = p64 n := by
  have h8 : (8 : Nat) = (p64 n).length + 0 := by simp [p64_length]
  rw [h8, List.take_append, List.take_zero, List.append_nil]

/-- The hot (delta_after0) branch of `load`, as an equation: with
checkpoints set and a truthy `delta_after0` entry, `load` probes only the
exact key and either returns the enveloped hit, fails the envelope assert,
or falls through to the database with `expected = delta_after0[oid]`. -/
theorem load_hot_eq (st : CacheState) (tiers : List Tier)
    (lc : Nat → Option Bytes × Nat) (oid t cp0 cp1 : Nat)
    (h0 : st.checkpoints = some (cp0, cp1))
    (h1 : alookup st.delta_after0 oid = some t) (h2 : t ≠ 0) :
    load st tiers lc oid =
      (match (hot_scan (state_key st.pfx t oid) tiers).1 with
       | some d =>
         { result :=
             if d.take 8 = p64 t then .ok (some (d.drop 8), t)
             else .error .assertionError,
           probed := List.replicate (hot_scan (state_key st.pfx t oid) tiers).2
             (state_key st.pfx t oid),
           writes := [] }
       | none =>
         match check_tid_after_load st oid (lc oid).2 (some t) with
         | .error e =>
           { result := .error e,
             probed := List.replicate (hot_scan (state_key st.pfx t oid) tiers).2
               (state_key st.pfx t oid),
             writes := [] }
         | .ok _ =>
           { result := .ok ((lc oid).1, t),
             probed := List.replicate (hot_scan (state_key st.pfx t oid) tiers).2
               (state_key st.pfx t oid),
             writes := (List.range tiers.length).map
               (fun i => (i, state_key st.pfx t oid, p64 t ++ (lc oid).1.getD [])) }) := by
  simp [load, h0, h1, h2, check_tid_after_load]

/-- Every entry of every batch produced by `send_loop` is either carried in
from the accumulators or is the `send_entry` encoding of one of the queue
items. -/
theorem send_loop_mem (limit : Nat) (pfx : String) (queue : Bytes) (tid : Bytes) :
    ∀ (items : List (Nat × Nat × Nat)) (flushed : List (List (String × Bytes)))
      (cur : List (String × Bytes)) (size : Nat) (bs : List (List (String × Bytes))),
      send_loop limit pfx queue tid items flushed cur size = .ok bs →
      ∀ b ∈ bs, ∀ e ∈ b,
        (∃ b' ∈ flushed, e ∈ b') ∨ e ∈ cur ∨
          ∃ it ∈ items, ∃ sz, send_entry pfx queue tid it = .ok (e, sz) := by
  intro items
  induction items with
  | nil =>
    intro flushed cur size bs hok b hb e he
    simp only [send_loop] at hok
    by_cases hc : cur = []
    · rw [if_pos hc] at hok
      have hbs : flushed = bs := Except.ok.inj hok
      subst hbs
      exact Or.inl ⟨b, hb, he⟩
    · rw [if_neg hc] at hok
      have hbs : flushed ++ [cur] = bs := Except.ok.inj hok
      subst hbs
      rcases List.mem_append.1 hb with h | h
      · exact Or.inl ⟨b, h, he⟩
      · have hbc : b = cur := by simpa using h
        subst hbc
        exact Or.inr (Or.inl he)
  | cons it rest ih =>
    intro flushed cur size bs hok b hb e he
    simp only [send_loop] at hok
    rcases hse : send_entry pfx queue tid it with er | ⟨entry, isize⟩
    · simp [hse] at hok
    · simp only [hse] at hok
      by_cases hcond : size ≠ 0 ∧ limit ≤ size + isize
      · rw [if_pos hcond] at hok
        rcases ih (flushed ++ [cur]) [entry] isize bs hok b hb e he with
          ⟨b', hb', he'⟩ | he' | ⟨it', hit', sz, hsz⟩
        · rcases List.mem_append.1 hb' with h | h
          · exact Or.inl ⟨b', h, he'⟩
          · have hbc : b' = cur := by simpa using h
            subst hbc
            exact Or.inr (Or.inl he')
        · have hee : e = entry := by simpa using he'
          subst hee
          exact Or.inr (Or.inr ⟨it, List.mem_cons_self it rest, isize, hse⟩)
        · exact Or.inr (Or.inr ⟨it', List.mem_cons_of_mem it hit', sz, hsz⟩)
      · rw [if_neg hcond] at hok
        rcases ih flushed (cur ++ [entry]) (size + isize) bs hok b hb e he with
          ⟨b', hb', he'⟩ | he' | ⟨it', hit', sz, hsz⟩
        · exact Or.inl ⟨b', hb', he'⟩
        · rcases List.mem_append.1 he' with h | h
          · exact Or.inr (Or.inl h)
          · have hee : e = entry := by simpa using h
            subst hee
            exact Or.inr (Or.inr ⟨it, List.mem_cons_self it rest, isize, hse⟩)
        · exact Or.inr (Or.inr ⟨it', List.mem_cons_of_mem it hit', sz, hsz⟩)

/-- `poll_finish` never changes the installed state or path: the shift
suggestion only touches tiers. -/
theorem poll_finish_st_path (st : CacheState) (tiers : List Tier) (new_tid : Nat)
    (allow_shift : Bool) (stp : CacheState × PollPath) :
    (poll_finish st tiers new_tid allow_shift stp).st = stp.1 ∧
    (poll_finish st tiers new_tid allow_shift stp).path = stp.2 := by
  simp only [poll_finish]
  constructor
  · split
    · split <;> rfl
    · rfl
  · split
    · split <;> rfl
    · rfl

/-- With a valid marker found and the fast-path conditions met,
`after_poll` only merges the changes into `delta_after0` (keeping maxima)
and advances `current_tid`. -/
theorem after_poll_fast (st : CacheState) (tiers : List Tier)
    (lcs : Nat → Nat → List (Nat × Nat)) (prev_tid : Option Nat) (new_tid : Nat)
    (changes : Option (List (Nat × Nat))) (found : Nat × Nat)
    (hm : marker_scan (checkpoints_key st.pfx) tiers.reverse = some found)
    (hf : some (if new_tid < found.1 then st.checkpoints.getD (new_tid, new_tid) else found) =
            st.checkpoints ∧ changes ≠ none ∧ prev_tid.getD 0 ≠ 0 ∧
            prev_tid.getD 0 ≤ st.current_tid ∧ st.current_tid ≤ new_tid) :
    (after_poll st tiers lcs prev_tid new_tid changes).st =
      { st with delta_after0 := apply_changes_max st.delta_after0 (changes.getD []),
                current_tid := new_tid } ∧
    (after_poll st tiers lcs prev_tid new_tid changes).path = .fast := by
  simp only [after_poll, hm]
  rw [if_pos hf, (poll_finish_st_path _ _ _ _ _).1, (poll_finish_st_path _ _ _ _ _).2]
  exact ⟨rfl, rfl⟩

/-- With a valid marker found and the fast-path conditions not met,
`after_poll` rebuilds: it adopts the (future-guarded) proposal and
repartitions the change history into fresh delta maps. -/
theorem after_poll_rebuild (st : CacheState) (tiers : List Tier)
    (lcs : Nat → Nat → List (Nat × Nat)) (prev_tid : Option Nat) (new_tid : Nat)
    (changes : Option (List (Nat × Nat))) (found : Nat × Nat)
    (hm : marker_scan (checkpoints_key st.pfx) tiers.reverse = some found)
    (hf : ¬ (some (if new_tid < found.1 then st.checkpoints.getD (new_tid, new_tid) else found) =
            st.checkpoints ∧ changes ≠ none ∧ prev_tid.getD 0 ≠ 0 ∧
            prev_tid.getD 0 ≤ st.current_tid ∧ st.current_tid ≤ new_tid)) :
    (after_poll st tiers lcs prev_tid new_tid changes).st.checkpoints =
      some (if new_tid < found.1 then st.checkpoints.getD (new_tid, new_tid) else found) ∧
    (after_poll st tiers lcs prev_tid new_tid changes).st.delta_after0 =
      (if (if new_tid < found.1 then st.checkpoints.getD (new_tid, new_tid) else found).2 <
           new_tid then
         partition_deltas
           (if new_tid < found.1 then st.checkpoints.getD (new_tid, new_tid) else found).1
           (if new_tid < found.1 then st.checkpoints.getD (new_tid, new_tid) else found).2
           (build_change_dict (lcs
             (if new_tid < found.1 then st.checkpoints.getD (new_tid, new_tid) else found).2
             new_tid)) ([], [])
       else ([], [])).1 ∧
    (after_poll st tiers lcs prev_tid new_tid changes).st.delta_after1 =
      (if (if new_tid < found.1 then st.checkpoints.getD (new_tid, new_tid) else found).2 <
           new_tid then
         partition_deltas
           (if new_tid < found.1 then st.checkpoints.getD (new_tid, new_tid) else found).1
           (if new_tid < found.1 then st.checkpoints.getD (new_tid, new_tid) else found).2
           (build_change_dict (lcs
             (if new_tid < found.1 then st.checkpoints.getD (new_tid, new_tid) else found).2
             new_tid)) ([], [])
       else ([], [])).2 ∧
    (after_poll st tiers lcs prev_tid new_tid changes).st.current_tid = new_tid ∧
    (after_poll st tiers lcs prev_tid new_tid changes).path = .rebuild := by
  refine ⟨?_, ?_, ?_, ?_, ?_⟩ <;> (simp only [after_poll, hm]; rw [if_neg hf])
  · exact congrArg CacheState.checkpoints (poll_finish_st_path _ _ _ _ _).1
  · exact congrArg CacheState.delta_after0 (poll_finish_st_path _ _ _ _ _).1
  · exact congrArg CacheState.delta_after1 (poll_finish_st_path _ _ _ _ _).1
  · exact congrArg CacheState.current_tid (poll_finish_st_path _ _ _ _ _).1
  · exact (poll_finish_st_path _ _ _ _ _).2

/-- The fast-path merge only produces values above `cp0` when the old map
and the incoming changes do. -/
theorem apply_changes_max_gt (cp0 : Nat) :
    ∀ (chs m : List (Nat × Nat)), (∀ p ∈ m, cp0 < p.2) → (∀ p ∈ chs, cp0 < p.2) →
      ∀ p ∈ apply_changes_max m chs, cp0 < p.2 := by
  intro chs
  induction chs with
  | nil =>
    intro m hm _ p hp
    exact hm p hp
  | cons c rest ih =>
    intro m hm hc p hp
    simp only [apply_changes_max] at hp
    have hc0 : cp0 < c.2 := hc c (List.mem_cons_self c rest)
    have hcrest : ∀ q ∈ rest, cp0 < q.2 := fun q hq => hc q (List.mem_cons_of_mem c hq)
    rcases halo : alookup m c.1 with _ | v
    · simp only [halo] at hp
      refine ih (upsert m c.1 c.2) ?_ hcrest p hp
      intro q hq
      rcases mem_upsert m c.1 c.2 q hq with h | h
      · exact hm q h
      · rw [h]
        exact hc0
    · simp only [halo] at hp
      by_cases hv : v < c.2
      · rw [if_pos hv] at hp
        refine ih (upsert m c.1 c.2) ?_ hcrest p hp
        intro q hq
        rcases mem_upsert m c.1 c.2 q hq with h | h
        · exact hm q h
        · rw [h]
          exact hc0
      · rw [if_neg hv] at hp
        exact ih m hm hcrest p hp

/-- The rebuild partition puts only values above `cp0` into the new
`delta_after0` and only values in `(cp1, cp0]` into the new
`delta_after1`. -/
theorem partition_deltas_window (cp0 cp1 : Nat) :
    ∀ (cd : List (Nat × Nat)) (acc : List (Nat × Nat) × List (Nat × Nat)),
      (∀ p ∈ acc.1, cp0 < p.2) → (∀ p ∈ acc.2, cp1 < p.2 ∧ p.2 ≤ cp0) →
      (∀ p ∈ (partition_deltas cp0 cp1 cd acc).1, cp0 < p.2) ∧
      (∀ p ∈ (partition_deltas cp0 cp1 cd acc).2, cp1 < p.2 ∧ p.2 ≤ cp0) := by
  intro cd
  induction cd with
  | nil =>
    intro acc h0 h1
    exact ⟨h0, h1⟩
  | cons c rest ih =>
    intro acc h0 h1
    simp only [partition_deltas]
    by_cases hcp0 : cp0 < c.2
    · rw [if_pos hcp0]
      refine ih (upsert acc.1 c.1 c.2, acc.2) ?_ h1
      intro q hq
      rcases mem_upsert acc.1 c.1 c.2 q hq with h | h
      · exact h0 q h
      · rw [h]
        exact hcp0
    · rw [if_neg hcp0]
      by_cases hcp1 : cp1 < c.2
      · rw [if_pos hcp1]
        refine ih (acc.1, upsert acc.2 c.1 c.2) h0 ?_
        intro q hq
        rcases mem_upsert acc.2 c.1 c.2 q hq with h | h
        · exact h1 q h
        · rw [h]
          exact ⟨hcp1, Nat.not_lt.1 hcp0⟩
      · rw [if_neg hcp1]
        exact ih acc h0 h1

/-- Unfolding of the windowing predicate. -/
theorem window_ok_iff (st : CacheState) :
    window_ok st = true ↔
      ∀ cp0 cp1, st.checkpoints = some (cp0, cp1) →
        (∀ p ∈ st.delta_after0, cp0 < p.2) ∧
        (∀ p ∈ st.delta_after1, cp1 < p.2 ∧ p.2 ≤ cp0) := by
  rcases hcp : st.checkpoints with _ | ⟨cp0, cp1⟩
  · simp [window_ok, hcp]
  · simp only [window_ok, hcp, Bool.and_eq_true, List.all_eq_true]
    constructor
    · rintro ⟨h0, h1⟩ c0 c1 hc
      obtain ⟨rfl, rfl⟩ : cp0 = c0 ∧ cp1 = c1 := by simpa using hc
      refine ⟨fun p hp => by simpa using h0 p hp, fun p hp => by simpa using h1 p hp⟩
    · intro h
      obtain ⟨h0, h1⟩ := h cp0 cp1 rfl
      exact ⟨fun p hp => by simpa using h0 p hp, fun p hp => by simpa using h1 p hp⟩

/-- Repeatedly writing the commit tid into `delta_after0` (the
`after_tpc_finish` loop) only introduces that tid as a new value. -/
theorem foldl_upsert_mem (v : Nat) :
    ∀ (qc : List (Nat × Nat × Nat)) (m : List (Nat × Nat)) (p : Nat × Nat),
      p ∈ qc.foldl (fun m q => upsert m q.1 v) m → p ∈ m ∨ p.2 = v := by
  intro qc
  induction qc with
  | nil =>
    intro m p hp
    exact Or.inl hp
  | cons q rest ih =>
    intro m p hp
    simp only [List.foldl_cons] at hp
    rcases ih (upsert m q.1 v) p hp with h | h
    · rcases mem_upsert m q.1 v p h with h2 | h2
      · exact Or.inl h2
      · rw [h2]
        exact Or.inr rfl
    · exact Or.inr h

theorem fast_lookup_spec_some (x : Nat) (ts : List Nat) :
    fast_lookup_spec (some x) ts = some (ts.foldl Nat.max x) := by
  cases ts <;> simp [fast_lookup_spec]

theorem le_foldl_max : ∀ (ts : List Nat) (x : Nat), x ≤ ts.foldl Nat.max x := by
  intro ts
  induction ts with
  | nil => simp
  | cons t rest ih =>
    intro x
    simpa using Nat.le_trans (Nat.le_max_left x t) (ih (Nat.max x t))

/-- Lookup characterisation of the fast-path merge: the new
`delta_after0` entry for each oid is the max of the old entry and the
delivered tids. -/
theorem apply_changes_max_lookup :
    ∀ (chs m : List (Nat × Nat)) (oid : Nat),
      alookup (apply_changes_max m chs) oid =
        fast_lookup_spec (alookup m oid) (change_tids chs oid) := by
  intro chs
  induction chs with
  | nil =>
    intro m oid
    simp [apply_changes_max, change_tids, fast_lookup_spec]
  | cons c rest ih =>
    intro m oid
    simp only [apply_changes_max]
    by_cases hc : c.1 = oid
    · subst hc
      have hstep : alookup
            (match alookup m c.1 with
             | none => upsert m c.1 c.2
             | some v => if v < c.2 then upsert m c.1 c.2 else m) c.1 =
          some (Nat.max ((alookup m c.1).getD 0) c.2) := by
        rcases halo : alookup m c.1 with _ | v
        · simp [alookup_upsert_self, Nat.zero_max]
        · by_cases hv : v < c.2
          · simp [hv, alookup_upsert_self, Nat.max_eq_right (Nat.le_of_lt hv)]
          · simp [hv, halo, Nat.max_eq_left (Nat.not_lt.1 hv)]
      rw [ih, hstep, fast_lookup_spec_some]
      have hct : change_tids (c :: rest) c.1 = c.2 :: change_tids rest c.1 := by
        simp [change_tids]
      rw [hct]
      rcases halo : alookup m c.1 with _ | v <;>
        simp [fast_lookup_spec, List.foldl_cons]
    · have hct : change_tids (c :: rest) oid = change_tids rest oid := by
        simp [change_tids, hc]
      rw [ih, hct]
      have hstep : alookup
            (match alookup m c.1 with
             | none => upsert m c.1 c.2
             | some v => if v < c.2 then upsert m c.1 c.2 else m) oid =
          alookup m oid := by
        have hne : oid ≠ c.1 := fun h => hc h.symm
        rcases halo : alookup m c.1 with _ | v
        · simp [alookup_upsert_ne m c.1 oid c.2 hne]
        · by_cases hv : v < c.2
          · simp [hv, alookup_upsert_ne m c.1 oid c.2 hne]
          · simp [hv]
      rw [hstep]

/-- With no valid marker anywhere, `after_poll` takes the
adopt/initialize branch. -/
theorem after_poll_path_init (st : CacheState) (tiers : List Tier)
    (lcs : Nat → Nat → List (Nat × Nat)) (prev_tid : Option Nat) (new_tid : Nat)
    (changes : Option (List (Nat × Nat)))
    (hm : marker_scan (checkpoints_key st.pfx) tiers.reverse = none) :
    (after_poll st tiers lcs prev_tid new_tid changes).path = .init := by
  simp [after_poll, hm]

/-- One fast-path poll never decreases a `delta_after0` entry. -/
theorem after_poll_fast_mono (st : CacheState) (tiers : List Tier)
    (lcs : Nat → Nat → List (Nat × Nat)) (prev_tid : Option Nat) (new_tid : Nat)
    (changes : Option (List (Nat × Nat)))
    (hp : (after_poll st tiers lcs prev_tid new_tid changes).path = .fast) :
    ∀ oid t, alookup st.delta_after0 oid = some t →
      ∃ t', alookup (after_poll st tiers lcs prev_tid new_tid changes).st.delta_after0 oid =
        some t' ∧ t ≤ t' := by
  intro oid t ht
  rcases hm : marker_scan (checkpoints_key st.pfx) tiers.reverse with _ | found
  · rw [after_poll_path_init st tiers lcs prev_tid new_tid changes hm] at hp
    cases hp
  · by_cases hf : some (if new_tid < found.1 then st.checkpoints.getD (new_tid, new_tid)
        else found) = st.checkpoints ∧ changes ≠ none ∧ prev_tid.getD 0 ≠ 0 ∧
        prev_tid.getD 0 ≤ st.current_tid ∧ st.current_tid ≤ new_tid
    · rw [(after_poll_fast st tiers lcs prev_tid new_tid changes found hm hf).1]
      have hl := apply_changes_max_lookup (changes.getD []) st.delta_after0 oid
      rw [ht] at hl
      rw [fast_lookup_spec_some] at hl
      exact ⟨(change_tids (changes.getD []) oid).foldl Nat.max t, hl,
        le_foldl_max (change_tids (changes.getD []) oid) t⟩
    · rw [(after_poll_rebuild st tiers lcs prev_tid new_tid changes found hm hf).2.2.2.2] at hp
      cases hp

/-- Across a sequence of polls that all take the fast path, every
`delta_after0` entry is non-decreasing. -/
theorem poll_seq_mono :
    ∀ (calls : List PollCall) (st : CacheState) (tiers : List Tier)
      (stf : CacheState) (tiersf : List Tier),
      poll_seq st tiers calls = (stf, tiersf, true) →
      ∀ oid t, alookup st.delta_after0 oid = some t →
        ∃ t', alookup stf.delta_after0 oid = some t' ∧ t ≤ t' := by
  intro calls
  induction calls with
  | nil =>
    intro st tiers stf tiersf h oid t ht
    obtain ⟨h1, h2, _⟩ : st = stf ∧ tiers = tiersf ∧ True := by
      simpa [poll_seq, Prod.ext_iff] using h
    subst h1
    exact ⟨t, ht, Nat.le_refl t⟩
  | cons c rest ih =>
    intro st tiers stf tiersf h oid t ht
    simp only [poll_seq] at h
    obtain ⟨h1, h2, h3⟩ : (poll_seq (after_poll st tiers c.list_changes c.prev_tid
        c.new_tid c.changes).st (after_poll st tiers c.list_changes c.prev_tid
        c.new_tid c.changes).tiers rest).1 = stf ∧
        (poll_seq _ _ rest).2.1 = tiersf ∧
        (decide ((after_poll st tiers c.list_changes c.prev_tid c.new_tid
          c.changes).path = PollPath.fast) &&
          (poll_seq (after_poll st tiers c.list_changes c.prev_tid c.new_tid
            c.changes).st (after_poll st tiers c.list_changes c.prev_tid
            c.new_tid c.changes).tiers rest).2.2) = true := by
      simpa [Prod.ext_iff] using h
    rw [Bool.and_eq_true, decide_eq_true_eq] at h3
    obtain ⟨hfast, hflag⟩ := h3
    obtain ⟨t1, ht1, hle1⟩ := after_poll_fast_mono st tiers c.list_changes c.prev_tid
      c.new_tid c.changes hfast oid t ht
    have hseq : poll_seq (after_poll st tiers c.list_changes c.prev_tid
        c.new_tid c.changes).st (after_poll st tiers c.list_changes c.prev_tid
        c.new_tid c.changes).tiers rest = (stf, tiersf, true) := by
      rw [← h1, ← h2, ← hflag]
    obtain ⟨t', ht', hle2⟩ := ih _ _ stf tiersf hseq oid t1 ht1
    exact ⟨t', ht', Nat.le_trans hle1 hle2⟩

theorem insertSorted_perm {α : Type} (le : α → α → Bool) (x : α) :
    ∀ l : List α, (insertSorted le x l).Perm (x :: l) := by
  intro l
  induction l with
  | nil => simp [insertSorted]
  | cons y rest ih =>
    simp only [insertSorted]
    by_cases hxy : le x y = true
    · rw [if_pos hxy]
    · rw [if_neg hxy]
      exact (ih.cons y).trans (List.Perm.swap x y rest)

theorem sortBy_perm {α : Type} (le : α → α → Bool) :
    ∀ l : List α, (sortBy le l).Perm l := by
  intro l
  induction l with
  | nil => simp [sortBy]
  | cons x rest ih =>
    exact (insertSorted_perm le x (sortBy le rest)).trans (ih.cons x)

theorem insertSorted_pairwise {α : Type} (le : α → α → Bool)
    (htrans : ∀ a b c, le a b = true → le b c = true → le a c = true)
    (htot : ∀ a b, le a b = true ∨ le b a = true) (x : α) :
    ∀ l : List α, l.Pairwise (fun a b => le a b = true) →
      (insertSorted le x l).Pairwise (fun a b => le a b = true) := by
  intro l
  induction l with
  | nil => simp [insertSorted]
  | cons y rest ih =>
    intro hp
    obtain ⟨hy, hrest⟩ := List.pairwise_cons.1 hp
    simp only [insertSorted]
    by_cases hxy : le x y = true
    · rw [if_pos hxy]
      refine List.pairwise_cons.2 ⟨?_, hp⟩
      intro b hb
      rcases List.mem_cons.1 hb with rfl | hb
      · exact hxy
      · exact htrans x y b hxy (hy b hb)
    · rw [if_neg hxy]
      have hyx : le y x = true := (htot x y).resolve_left hxy
      refine List.pairwise_cons.2 ⟨?_, ih hrest⟩
      intro b hb
      have hb2 : b ∈ x :: rest := (insertSorted_perm le x rest).mem_iff.1 hb
      rcases List.mem_cons.1 hb2 with rfl | hb3
      · exact hyx
      · exact hy b hb3

theorem sortBy_pairwise {α : Type} (le : α → α → Bool)
    (htrans : ∀ a b c, le a b = true → le b c = true → le a c = true)
    (htot : ∀ a b, le a b = true ∨ le b a = true) :
    ∀ l : List α, (sortBy le l).Pairwise (fun a b => le a b = true) := by
  intro l
  induction l with
  | nil => simp [sortBy]
  | cons x rest ih => exact insertSorted_pairwise le htrans htot x (sortBy le rest) ih

theorem triple_le_trans (a b c : Nat × Nat × Nat) :
    triple_le a b = true → triple_le b c = true → triple_le a c = true := by
  simp only [triple_le, Bool.or_eq_true, Bool.and_eq_true, decide_eq_true_eq]
  omega

theorem triple_le_total (a b : Nat × Nat × Nat) :
    triple_le a b = true ∨ triple_le b a = true := by
  simp only [triple_le, Bool.or_eq_true, Bool.and_eq_true, decide_eq_true_eq]
  omega

theorem triple_le_start (a b : Nat × Nat × Nat) (h : triple_le a b = true) :
    a.1 ≤ b.1 := by
  simp only [triple_le, Bool.or_eq_true, Bool.and_eq_true, decide_eq_true_eq] at h
  omega

/-- A queue item whose end position lies within the spool file encodes
successfully, with the accounted item size. -/
theorem send_entry_eq (pfx : String) (queue : Bytes) (tid : Bytes) (it : Nat × Nat × Nat)
    (ht : tid.length = 8) (hwf : it.2.1 ≤ queue.length) :
    send_entry pfx queue tid it =
      .ok (queued_entry pfx queue tid it, entry_size (queued_entry pfx queue tid it)) := by
  have hlen : ((queue.drop it.1).take (it.2.1 - it.1)).length = it.2.1 - it.1 := by
    simp only [List.length_take, List.length_drop]
    omega
  simp only [send_entry, read_temp_state, hlen, if_pos, queued_entry, entry_size]
  simp [List.length_append, ht, hlen]

/-- Under successful reads, the source's batching loop equals the greedy
reference chunker applied to the encoded entries. -/
theorem send_loop_eq_chunk (limit : Nat) (pfx : String) (queue : Bytes) (tid : Bytes)
    (ht : tid.length = 8) :
    ∀ (items : List (Nat × Nat × Nat)) (flushed : List (List (String × Bytes)))
      (cur : List (String × Bytes)) (size : Nat),
      (∀ it ∈ items, it.2.1 ≤ queue.length) →
      send_loop limit pfx queue tid items flushed cur size =
        .ok (flushed ++
          chunk_loop limit entry_size (items.map (queued_entry pfx queue tid)) cur size) := by
  intro items
  induction items with
  | nil =>
    intro flushed cur size _
    by_cases hc : cur = [] <;> simp [send_loop, chunk_loop, hc]
  | cons it rest ih =>
    intro flushed cur size hwf
    have hhd : it.2.1 ≤ queue.length := hwf it (List.mem_cons_self it rest)
    have htl : ∀ q ∈ rest, q.2.1 ≤ queue.length :=
      fun q hq => hwf q (List.mem_cons_of_mem it hq)
    simp only [send_loop, send_entry_eq pfx queue tid it ht hhd, List.map_cons, chunk_loop]
    by_cases hcond : size ≠ 0 ∧ limit ≤ size + entry_size (queued_entry pfx queue tid it)
    · rw [if_pos hcond, if_pos hcond, ih (flushed ++ [cur]) [queued_entry pfx queue tid it]
        (entry_size (queued_entry pfx queue tid it)) htl]
      simp
    · rw [if_neg hcond, if_neg hcond, ih flushed (cur ++ [queued_entry pfx queue tid it])
        (size + entry_size (queued_entry pfx queue tid it)) htl]

/-- The reference chunker drops nothing and preserves order: its flattening
is the open batch followed by the remaining entries. -/
theorem chunk_loop_flatten (limit : Nat) (size : (String × Bytes) → Nat) :
    ∀ (l cur : List (String × Bytes)) (s : Nat),
      (chunk_loop limit size l cur s).flatten = cur ++ l := by
  intro l
  induction l with
  | nil =>
    intro cur s
    by_cases hc : cur = [] <;> simp [chunk_loop, hc]
  | cons e rest ih =>
    intro cur s
    simp only [chunk_loop]
    by_cases hcond : s ≠ 0 ∧ limit ≤ s + size e
    · rw [if_pos hcond]
      simp [ih]
    · rw [if_neg hcond]
      simp [ih]

/-! ## Claims -/

/-- C8 (amended): `send_queue(tid)` processes the queued entries in
ascending start-offset order (lexicographically on
`(startpos, endpos, oid)`), and batches them greedily: before adding an
item it flushes the accumulated batch whenever the batch is non-empty and
the running byte total plus the item REACHES OR EXCEEDS `send_limit` (the
source uses `>=`, so a total exactly equal to the limit already flushes —
see the counterexample); any non-empty remainder is flushed at the end,
and a single item whose size alone reaches the limit is still sent (the
flattening below accounts for every sorted entry).  Each flushed batch is
broadcast to every tier. -/
theorem claim_C8_send_queue (pfx : String) (limit : Nat) (tiers : List Tier)
    (queue : Bytes) (qc : List (Nat × Nat × Nat)) (tid : Bytes)
    (ht : tid.length = 8)
    (hwf : ∀ q ∈ qc, q.2.2 ≤ queue.length) :
    send_queue pfx limit tiers queue qc tid =
      .ok { batches := chunk_loop limit entry_size
              ((sortBy triple_le (qc.map (fun q => (q.2.1, q.2.2, q.1)))).map
                (queued_entry pfx queue tid)) [] 0,
            tiers := apply_batches tiers (chunk_loop limit entry_size
              ((sortBy triple_le (qc.map (fun q => (q.2.1, q.2.2, q.1)))).map
                (queued_entry pfx queue tid)) [] 0) } ∧
    (chunk_loop limit entry_size
        ((sortBy triple_le (qc.map (fun q => (q.2.1, q.2.2, q.1)))).map
          (queued_entry pfx queue tid)) [] 0).flatten =
      (sortBy triple_le (qc.map (fun q => (q.2.1, q.2.2, q.1)))).map
        (queued_entry pfx queue tid) ∧
    (sortBy triple_le (qc.map (fun q => (q.2.1, q.2.2, q.1)))).Perm
      (qc.map (fun q => (q.2.1, q.2.2, q.1))) ∧
    (sortBy triple_le (qc.map (fun q => (q.2.1, q.2.2, q.1)))).Pairwise
      (fun a b => a.1 ≤ b.1) := by
  have hwty : ∀ it ∈ sortBy triple_le (qc.map (fun q => (q.2.1, q.2.2, q.1))),
      it.2.1 ≤ queue.length := by
    intro it hit
    have hmem : it ∈ qc.map (fun q => (q.2.1, q.2.2, q.1)) :=
      (sortBy_perm triple_le _).mem_iff.1 hit
    obtain ⟨q, hq, rfl⟩ := List.mem_map.1 hmem
    exact hwf q hq
  refine ⟨?_, chunk_loop_flatten limit entry_size _ [] 0, sortBy_perm triple_le _, ?_⟩
  · simp only [send_queue]
    rw [send_loop_eq_chunk limit pfx queue tid ht _ [] [] 0 hwty]
    simp
  · exact (sortBy_pairwise triple_le triple_le_trans triple_le_total _).imp
      (fun h => triple_le_start _ _ h)

/-- C8 witness: one spooled item is read back, encoded under the commit
tid's key, and emitted as a single batch. -/
theorem claim_C8_witness :
    send_queue "w" 1000 [[]] [1, 2, 3] [(5, 1, 3)] (p64 9) =
      .ok { batches := chunk_loop 1000 entry_size
              ((sortBy triple_le ([(5, 1, 3)].map (fun q => (q.2.1, q.2.2, q.1)))).map
                (queued_entry "w" [1, 2, 3] (p64 9))) [] 0,
            tiers := apply_batches [[]] (chunk_loop 1000 entry_size
              ((sortBy triple_le ([(5, 1, 3)].map (fun q => (q.2.1, q.2.2, q.1)))).map
                (queued_entry "w" [1, 2, 3] (p64 9))) [] 0) } ∧
    (chunk_loop 1000 entry_size
        ((sortBy triple_le ([(5, 1, 3)].map (fun q => (q.2.1, q.2.2, q.1)))).map
          (queued_entry "w" [1, 2, 3] (p64 9))) [] 0).flatten =
      (sortBy triple_le ([(5, 1, 3)].map (fun q => (q.2.1, q.2.2, q.1)))).map
        (queued_entry "w" [1, 2, 3] (p64 9)) ∧
    (sortBy triple_le ([(5, 1, 3)].map (fun q => (q.2.1, q.2.2, q.1)))).Perm
      ([(5, 1, 3)].map (fun q => (q.2.1, q.2.2, q.1))) ∧
    (sortBy triple_le ([(5, 1, 3)].map (fun q => (q.2.1, q.2.2, q.1)))).Pairwise
      (fun a b => a.1 ≤ b.1) :=
  claim_C8_send_queue "w" 1000 [[]] [1, 2, 3] [(5, 1, 3)] (p64 9) (by decide) (by decide)

/-- C8 counterexample: with `send_limit = 20` and two items of accounted
size 10 each, the running total of the second item equals the limit
exactly — it does not exceed it, yet the source (which flushes on `>=`)
splits the queue into two batches instead of the single batch the claim's
"would exceed" condition predicts. -/
theorem claim_C8_counterexample :
    send_queue "" 20 [[]] [] [(1, 0, 0), (2, 0, 0)] (p64 5) =
      .ok { batches := [[(state_key "" 5 1, p64 5)], [(state_key "" 5 2, p64 5)]],
            tiers := [[(state_key "" 5 1, p64 5), (state_key "" 5 2, p64 5)]] } ∧
    entry_size (state_key "" 5 1, p64 5) + entry_size (state_key "" 5 2, p64 5) = 20 ∧
    ¬ (20 < 20) := by
  decide

/-- C9 (amended): `from_state_key` yields a `(tid, oid)` pair iff the key
splits on `:` into exactly four parts whose parts 2 and 3 parse as Python
integers (signed numerals included); with exactly four parts and a
non-integer part it raises `ValueError`; the `(None, None)` sentinel is
returned exactly when the number of parts differs from four. -/
theorem claim_C9_from_state_key (k : String) :
    (from_state_key k = .ok none ↔ (splitChar ':' k).length ≠ 4) ∧
    (∀ t o : Int, from_state_key k = .ok (some (t, o)) ↔
      ∃ a b c d, splitChar ':' k = [a, b, c, d] ∧ pyInt c = some t ∧ pyInt d = some o) ∧
    (from_state_key k = .error .valueError ↔
      ∃ a b c d, splitChar ':' k = [a, b, c, d] ∧ (pyInt c = none ∨ pyInt d = none)) := by
  rcases hl : splitChar ':' k with _ | ⟨a, _ | ⟨b, _ | ⟨c, _ | ⟨d, _ | ⟨e, l⟩⟩⟩⟩⟩
  · constructor
    · simp [from_state_key, hl]
    · constructor
      · intro t o
        simp [from_state_key, hl]
      · simp [from_state_key, hl]
  · constructor
    · simp [from_state_key, hl]
    · constructor
      · intro t o
        simp [from_state_key, hl]
      · simp [from_state_key, hl]
  · constructor
    · simp [from_state_key, hl]
    · constructor
      · intro t o
        simp [from_state_key, hl]
      · simp [from_state_key, hl]
  · constructor
    · simp [from_state_key, hl]
    · constructor
      · intro t o
        simp [from_state_key, hl]
      · simp [from_state_key, hl]
  · -- exactly four parts: the source calls int() on parts 2 and 3
    rcases hc : pyInt c with _ | tc <;> rcases hd : pyInt d with _ | td
    · refine ⟨by simp [from_state_key, hl, hc], fun t o => ?_, ?_⟩
      · constructor
        · intro h
          simp [from_state_key, hl, hc] at h
        · rintro ⟨a', b', c', d', heq, h1, h2⟩
          obtain ⟨rfl, rfl, rfl, rfl⟩ := by simpa [List.cons.injEq] using heq
          rw [hc] at h1
          cases h1
      · constructor
        · intro _
          exact ⟨a, b, c, d, rfl, Or.inl hc⟩
        · intro _
          simp [from_state_key, hl, hc]
    · refine ⟨by simp [from_state_key, hl, hc], fun t o => ?_, ?_⟩
      · constructor
        · intro h
          simp [from_state_key, hl, hc] at h
        · rintro ⟨a', b', c', d', heq, h1, h2⟩
          obtain ⟨rfl, rfl, rfl, rfl⟩ := by simpa [List.cons.injEq] using heq
          rw [hc] at h1
          cases h1
      · constructor
        · intro _
          exact ⟨a, b, c, d, rfl, Or.inl hc⟩
        · intro _
          simp [from_state_key, hl, hc]
    · refine ⟨by simp [from_state_key, hl, hc, hd], fun t o => ?_, ?_⟩
      · constructor
        · intro h
          simp [from_state_key, hl, hc, hd] at h
        · rintro ⟨a', b', c', d', heq, h1, h2⟩
          obtain ⟨rfl, rfl, rfl, rfl⟩ := by simpa [List.cons.injEq] using heq
          rw [hd] at h2
          cases h2
      · constructor
        · intro _
          exact ⟨a, b, c, d, rfl, Or.inr hd⟩
        · intro _
          simp [from_state_key, hl, hc, hd]
    · refine ⟨by simp [from_state_key, hl, hc, hd], fun t o => ?_, ?_⟩
      · constructor
        · intro h
          simp only [from_state_key, hl, hc, hd] at h
          obtain ⟨h1, h2⟩ := by simpa using h
          exact ⟨a, b, c, d, rfl, by rw [hc, h1], by rw [hd, h2]⟩
        · rintro ⟨a', b', c', d', heq, h1, h2⟩
          obtain ⟨rfl, rfl, rfl, rfl⟩ := by simpa [List.cons.injEq] using heq
          rw [hc] at h1
          rw [hd] at h2
          simp only [from_state_key, hl, hc, hd]
          simp [Option.some.inj h1, Option.some.inj h2]
      · constructor
        · intro h
          simp [from_state_key, hl, hc, hd] at h
        · rintro ⟨a', b', c', d', heq, h1⟩
          obtain ⟨rfl, rfl, rfl, rfl⟩ := by simpa [List.cons.injEq] using heq
          rcases h1 with h1 | h1
          · rw [hc] at h1
            cases h1
          · rw [hd] at h1
            cases h1
  · constructor
    · constructor
      · intro _
        simp only [List.length_cons]
        omega
      · intro _
        simp [from_state_key, hl]
    · constructor
      · intro t o
        constructor
        · intro h
          simp [from_state_key, hl] at h
        · rintro ⟨a', b', c', d', heq, h1, h2⟩
          simp [List.cons.injEq] at heq
      · constructor
        · intro h
          simp [from_state_key, hl] at h
        · rintro ⟨a', b', c', d', heq, h1⟩
          simp [List.cons.injEq] at heq

/-- C9 counterexample: on `"a:b:c:d"` (four parts, non-numeric) the source
raises `ValueError` instead of yielding the `(None, None)` sentinel the
claim promises for every non-state-key input. -/
theorem claim_C9_counterexample :
    from_state_key "a:b:c:d" = .error .valueError ∧
      from_state_key "a:b:c:d" ≠ .ok none := by
  constructor
  · rfl
  · decide

/-- C6 (amended): `_check_tid_after_load` raises ReadConflict iff the
loaded tid exceeds `current_tid` (ReadConflict takes precedence); below
that, with a non-null mismatching `expect_tid_int` it raises the
CacheInconsistency assertion when checkpoints are set — but when
`self.checkpoints` is `None` that branch fails with `TypeError` while
unpacking the checkpoints for the diagnostic message; otherwise it returns
normally.  The function only reads the instance state. -/
theorem claim_C6_check_tid_characterisation (st : CacheState) (oid a : Nat) (e : Option Nat) :
    (check_tid_after_load st oid a e = .error .readConflict ↔ st.current_tid < a) ∧
    (check_tid_after_load st oid a e = .error .cacheInconsistency ↔
      a ≤ st.current_tid ∧ (∃ x, e = some x ∧ a ≠ x) ∧ st.checkpoints ≠ none) ∧
    (check_tid_after_load st oid a e = .error .typeError ↔
      a ≤ st.current_tid ∧ (∃ x, e = some x ∧ a ≠ x) ∧ st.checkpoints = none) ∧
    (check_tid_after_load st oid a e = .ok () ↔
      a ≤ st.current_tid ∧ (e = none ∨ e = some a)) := by
  by_cases hc : st.current_tid < a
  · simp [check_tid_after_load, hc, Nat.not_le.2 hc]
  · have hle : a ≤ st.current_tid := Nat.not_lt.1 hc
    rcases e with _ | x
    · simp [check_tid_after_load, hc, hle]
    · by_cases hx : a = x
      · subst hx
        simp [check_tid_after_load, hc, hle]
      · have hx' : ¬ x = a := fun hh => hx hh.symm
        rcases hcp : st.checkpoints with _ | cp
        · simp [check_tid_after_load, hc, hle, hx, hcp, hx']
        · simp [check_tid_after_load, hc, hle, hx, hcp, hx']

/-- C6 counterexample: with no checkpoints set, `current_tid = 10`,
`actual_tid = 3` and `expect_tid = 5`, the claim demands the
CacheInconsistency error, but the source fails with `TypeError` while
unpacking `self.checkpoints = None`. -/
theorem claim_C6_counterexample :
    check_tid_after_load
        { pfx := "p", checkpoints := none, delta_after0 := [], delta_after1 := [],
          current_tid := 10, delta_size_limit := 10 } 1 3 (some 5) = .error .typeError ∧
      check_tid_after_load
        { pfx := "p", checkpoints := none, delta_after0 := [], delta_after1 := [],
          current_tid := 10, delta_size_limit := 10 } 1 3 (some 5) ≠
        .error .cacheInconsistency := by
  decide

/-- C1 (amended): with checkpoints set and a `delta_after0` entry for the
oid that is nonzero (a zero value is treated as absence, see C10), `load`
probes only the key built from `delta_after0[oid]`; a tier hit of at least
8 bytes returns `(value bytes after the first 8, delta_after0[oid])`
provided its leading 8 bytes encode `delta_after0[oid]` — a hit violating
that envelope fails the internal assertion instead of returning; on a miss
in every tier it calls the adapter's `load_current`, runs the consistency
check with `expected = delta_after0[oid]` (any resulting error propagates
with no tier write), and on success writes the freshly encoded value under
that same key to every tier local-first and returns
`(state, delta_after0[oid])`.  No checkpoint or `delta_after1` key is
queried. -/
theorem claim_C1_load_hot_path (st : CacheState) (tiers : List Tier)
    (lc : Nat → Option Bytes × Nat) (oid t cp0 cp1 : Nat)
    (h0 : st.checkpoints = some (cp0, cp1))
    (h1 : alookup st.delta_after0 oid = some t) (h2 : t ≠ 0) :
    (∀ k ∈ (load st tiers lc oid).probed, k = state_key st.pfx t oid) ∧
    (∀ d, (hot_scan (state_key st.pfx t oid) tiers).1 = some d →
      (d.take 8 = p64 t →
        (load st tiers lc oid).result = .ok (some (d.drop 8), t) ∧
          (load st tiers lc oid).writes = []) ∧
      (d.take 8 ≠ p64 t →
        (load st tiers lc oid).result = .error .assertionError ∧
          (load st tiers lc oid).writes = [])) ∧
    ((hot_scan (state_key st.pfx t oid) tiers).1 = none →
      (∀ e, check_tid_after_load st oid (lc oid).2 (some t) = .error e →
        (load st tiers lc oid).result = .error e ∧ (load st tiers lc oid).writes = []) ∧
      (check_tid_after_load st oid (lc oid).2 (some t) = .ok () →
        (load st tiers lc oid).result = .ok ((lc oid).1, t) ∧
          (load st tiers lc oid).writes = (List.range tiers.length).map
            (fun i => (i, state_key st.pfx t oid, p64 t ++ (lc oid).1.getD [])))) := by
  rw [load_hot_eq st tiers lc oid t cp0 cp1 h0 h1 h2]
  refine ⟨?_, ?_, ?_⟩
  · intro k hk
    rcases hs : (hot_scan (state_key st.pfx t oid) tiers).1 with _ | d
    · rw [hs] at hk
      rcases hchk : check_tid_after_load st oid (lc oid).2 (some t) with e | u
      · rw [hchk] at hk
        exact List.eq_of_mem_replicate hk
      · rw [hchk] at hk
        exact List.eq_of_mem_replicate hk
    · rw [hs] at hk
      exact List.eq_of_mem_replicate hk
  · intro d hs
    rw [hs]
    constructor
    · intro hgood
      simp [hgood]
    · intro hbad
      simp [hbad]
  · intro hs
    rw [hs]
    constructor
    · intro e hchk
      rw [hchk]
      exact ⟨rfl, rfl⟩
    · intro hchk
      rw [hchk]
      exact ⟨rfl, rfl⟩

/-- C1 witness: a single tier holding a well-enveloped entry under the
exact key yields the hit result with no writes. -/
theorem claim_C1_witness :
    (load ⟨"p", some (100, 90), [(42, 7)], [], 100, 10⟩
        [[(state_key "p" 7 42, p64 7 ++ [5])]] (fun _ => (none, 0)) 42).result =
      .ok (some [5], 7) ∧
    (load ⟨"p", some (100, 90), [(42, 7)], [], 100, 10⟩
        [[(state_key "p" 7 42, p64 7 ++ [5])]] (fun _ => (none, 0)) 42).writes = [] :=
  ((claim_C1_load_hot_path ⟨"p", some (100, 90), [(42, 7)], [], 100, 10⟩
      [[(state_key "p" 7 42, p64 7 ++ [5])]] (fun _ => (none, 0)) 42 7 100 90
      rfl (by decide) (by decide)).2.1 (p64 7 ++ [5]) (by decide)).1 (by decide)

/-- C1 counterexample: a tier hit of at least 8 bytes whose leading bytes
do not encode `delta_after0[oid]` makes `load` fail the internal assertion
instead of returning `(value bytes after the first 8, delta_after0[oid])`
as the claim states for every hit of at least 8 bytes. -/
theorem claim_C1_counterexample :
    alookup ([(42, 7)] : List (Nat × Nat)) 42 = some 7 ∧
    (hot_scan (state_key "p" 7 42)
        [[(state_key "p" 7 42, [1, 2, 3, 4, 5, 6, 7, 8, 9])]]).1 =
      some [1, 2, 3, 4, 5, 6, 7, 8, 9] ∧
    8 ≤ ([1, 2, 3, 4, 5, 6, 7, 8, 9] : Bytes).length ∧
    (load ⟨"p", some (100, 90), [(42, 7)], [], 100, 10⟩
        [[(state_key "p" 7 42, [1, 2, 3, 4, 5, 6, 7, 8, 9])]]
        (fun _ => (none, 0)) 42).result = .error .assertionError := by
  decide

/-- C3 (amended): if the proposed checkpoints equal `self.checkpoints`,
`changes` is non-null, `prev_tid` is non-null AND NONZERO (Python
truthiness: `prev_tid = 0` is falsy and forces the rebuild path, see the
counterexample), `prev_tid ≤ current_tid` and `new_tid ≥ current_tid`,
then `after_poll` takes the fast path: checkpoints and `delta_after1` are
unchanged, `current_tid` becomes `new_tid`, and each `delta_after0` entry
becomes the max of its old value and the delivered tids for that oid;
consequently, across any sequence of polls that all take the fast path,
`delta_after0[oid]` is non-decreasing for every oid. -/
theorem claim_C3_fast_path (st : CacheState) (tiers : List Tier)
    (lcs : Nat → Nat → List (Nat × Nat)) (p new_tid : Nat)
    (chs : List (Nat × Nat)) (cps : Nat × Nat)
    (hm : marker_scan (checkpoints_key st.pfx) tiers.reverse = some cps)
    (hcp : st.checkpoints = some cps)
    (hp0 : p ≠ 0) (hple : p ≤ st.current_tid) (hnew : st.current_tid ≤ new_tid) :
    (after_poll st tiers lcs (some p) new_tid (some chs)).st.checkpoints =
      st.checkpoints ∧
    (after_poll st tiers lcs (some p) new_tid (some chs)).st.delta_after1 =
      st.delta_after1 ∧
    (after_poll st tiers lcs (some p) new_tid (some chs)).st.current_tid = new_tid ∧
    (after_poll st tiers lcs (some p) new_tid (some chs)).path = .fast ∧
    (∀ oid, alookup (after_poll st tiers lcs (some p) new_tid (some chs)).st.delta_after0
        oid =
      fast_lookup_spec (alookup st.delta_after0 oid) (change_tids chs oid)) ∧
    (∀ (calls : List PollCall) (st0 : CacheState) (tiers0 : List Tier)
        (stf : CacheState) (tiersf : List Tier),
      poll_seq st0 tiers0 calls = (stf, tiersf, true) →
      ∀ oid t, alookup st0.delta_after0 oid = some t →
        ∃ t', alookup stf.delta_after0 oid = some t' ∧ t ≤ t') := by
  have hif : (if new_tid < cps.1 then st.checkpoints.getD (new_tid, new_tid) else cps) =
      cps := by
    split
    · rw [hcp]
      rfl
    · rfl
  have hf : some (if new_tid < cps.1 then st.checkpoints.getD (new_tid, new_tid)
      else cps) = st.checkpoints ∧ (some chs : Option (List (Nat × Nat))) ≠ none ∧
      (some p : Option Nat).getD 0 ≠ 0 ∧ (some p : Option Nat).getD 0 ≤ st.current_tid ∧
      st.current_tid ≤ new_tid := by
    refine ⟨by rw [hif, hcp], by simp, by simpa using hp0, by simpa using hple, hnew⟩
  obtain ⟨hst, hpath⟩ := after_poll_fast st tiers lcs (some p) new_tid (some chs) cps hm hf
  rw [hst, hpath]
  refine ⟨rfl, rfl, rfl, rfl, ?_, poll_seq_mono⟩
  intro oid
  exact apply_changes_max_lookup chs st.delta_after0 oid

/-- C3 witness: a concrete fast-path poll, with its delta merge and the
sequence monotonicity instantiated trivially. -/
theorem claim_C3_witness :
    (after_poll ⟨"p", some (9, 9), [(1, 12)], [(2, 9)], 12, 99⟩
        [[(checkpoints_key "p", encode_checkpoints 9 9)]] (fun _ _ => [])
        (some 3) 15 (some [(1, 14), (4, 13)])).st.checkpoints =
      (⟨"p", some (9, 9), [(1, 12)], [(2, 9)], 12, 99⟩ : CacheState).checkpoints ∧
    (after_poll ⟨"p", some (9, 9), [(1, 12)], [(2, 9)], 12, 99⟩
        [[(checkpoints_key "p", encode_checkpoints 9 9)]] (fun _ _ => [])
        (some 3) 15 (some [(1, 14), (4, 13)])).st.delta_after1 =
      (⟨"p", some (9, 9), [(1, 12)], [(2, 9)], 12, 99⟩ : CacheState).delta_after1 ∧
    (after_poll ⟨"p", some (9, 9), [(1, 12)], [(2, 9)], 12, 99⟩
        [[(checkpoints_key "p", encode_checkpoints 9 9)]] (fun _ _ => [])
        (some 3) 15 (some [(1, 14), (4, 13)])).st.current_tid = 15 ∧
    (after_poll ⟨"p", some (9, 9), [(1, 12)], [(2, 9)], 12, 99⟩
        [[(checkpoints_key "p", encode_checkpoints 9 9)]] (fun _ _ => [])
        (some 3) 15 (some [(1, 14), (4, 13)])).path = .fast ∧
    (∀ oid, alookup (after_poll ⟨"p", some (9, 9), [(1, 12)], [(2, 9)], 12, 99⟩
        [[(checkpoints_key "p", encode_checkpoints 9 9)]] (fun _ _ => [])
        (some 3) 15 (some [(1, 14), (4, 13)])).st.delta_after0 oid =
      fast_lookup_spec (alookup ([(1, 12)] : List (Nat × Nat)) oid)
        (change_tids [(1, 14), (4, 13)] oid)) ∧
    (∀ (calls : List PollCall) (st0 : CacheState) (tiers0 : List Tier)
        (stf : CacheState) (tiersf : List Tier),
      poll_seq st0 tiers0 calls = (stf, tiersf, true) →
      ∀ oid t, alookup st0.delta_after0 oid = some t →
        ∃ t', alookup stf.delta_after0 oid = some t' ∧ t ≤ t') :=
  claim_C3_fast_path ⟨"p", some (9, 9), [(1, 12)], [(2, 9)], 12, 99⟩
    [[(checkpoints_key "p", encode_checkpoints 9 9)]] (fun _ _ => [])
    3 15 [(1, 14), (4, 13)] (9, 9) (by decide) (by decide) (by decide) (by decide)
    (by decide)

/-- C3 counterexample: with `prev_tid = 0` — non-null, and satisfying every
condition the claim lists — Python truthiness sends `after_poll` down the
rebuild path, which discards the existing `delta_after0` entry the claim
says is preserved. -/
theorem claim_C3_counterexample :
    alookup ([(5, 150)] : List (Nat × Nat)) 5 = some 150 ∧
    (0 : Nat) ≤ 100 ∧ (100 : Nat) ≤ 120 ∧
    marker_scan (checkpoints_key "p")
      ([[(checkpoints_key "p", encode_checkpoints 100 100)]] : List Tier).reverse =
      some (100, 100) ∧
    (after_poll ⟨"p", some (100, 100), [(5, 150)], [], 100, 10⟩
        [[(checkpoints_key "p", encode_checkpoints 100 100)]] (fun _ _ => [])
        (some 0) 120 (some [])).path = .rebuild ∧
    alookup (after_poll ⟨"p", some (100, 100), [(5, 150)], [], 100, 10⟩
        [[(checkpoints_key "p", encode_checkpoints 100 100)]] (fun _ _ => [])
        (some 0) 120 (some [])).st.delta_after0 5 = none := by
  decide

/-- C4 (amended): the value envelope holds for the delta-exclusive (hot)
key — a hot hit returns the tid its first 8 bytes encode (the assert
enforces equality with the key's tid), every hot-branch store writes
`p64 tid ++ state` under the key built from that same tid, and every
`send_queue` store writes `tid ++ state` under the key built from
`u64 tid`.  It does NOT hold for the preferred cp0 key: promotion of a
`delta_after1`/cp1 hit copies the original value (whose leading tid is the
older commit tid) under the cp0 key, see the counterexample. -/
theorem claim_C4_value_envelope (st : CacheState) (tiers : List Tier)
    (lc : Nat → Option Bytes × Nat) (oid t cp0 cp1 : Nat)
    (pfx : String) (limit : Nat) (tiers2 : List Tier) (queue : Bytes)
    (qc : List (Nat × Nat × Nat)) (tid : Bytes) (out : SendOut)
    (h0 : st.checkpoints = some (cp0, cp1))
    (h1 : alookup st.delta_after0 oid = some t) (h2 : t ≠ 0)
    (ht : tid.length = 8)
    (hs : send_queue pfx limit tiers2 queue qc tid = .ok out) :
    (∀ w ∈ (load st tiers lc oid).writes,
      w.2.1 = state_key st.pfx t oid ∧ (w.2.2).take 8 = p64 t) ∧
    (∀ s rt, (load st tiers lc oid).result = .ok (s, rt) → rt = t) ∧
    (∀ b ∈ out.batches, ∀ e ∈ b,
      (∃ o, e.1 = state_key pfx (u64 tid) o) ∧ e.2.take 8 = tid) := by
  rw [load_hot_eq st tiers lc oid t cp0 cp1 h0 h1 h2]
  refine ⟨?_, ?_, ?_⟩
  · intro w hw
    rcases hscan : (hot_scan (state_key st.pfx t oid) tiers).1 with _ | d
    · simp only [hscan] at hw
      rcases hchk : check_tid_after_load st oid (lc oid).2 (some t) with e | u
      · simp only [hchk] at hw
        simp at hw
      · simp only [hchk, List.mem_map] at hw
        obtain ⟨i, _, hi⟩ := hw
        subst hi
        exact ⟨rfl, take_p64_append t _⟩
    · simp only [hscan] at hw
      simp at hw
  · intro s rt hres
    rcases hscan : (hot_scan (state_key st.pfx t oid) tiers).1 with _ | d
    · simp only [hscan] at hres
      rcases hchk : check_tid_after_load st oid (lc oid).2 (some t) with e | u
      · simp only [hchk] at hres
        cases hres
      · simp only [hchk] at hres
        exact (Prod.mk.inj (Except.ok.inj hres)).2.symm
    · simp only [hscan] at hres
      by_cases hgood : d.take 8 = p64 t
      · rw [if_pos hgood] at hres
        exact (Prod.mk.inj (Except.ok.inj hres)).2.symm
      · rw [if_neg hgood] at hres
        cases hres
  · intro b hb e he
    simp only [send_queue] at hs
    rcases hloop : send_loop limit pfx queue tid
        (sortBy triple_le (qc.map (fun q => (q.2.1, q.2.2, q.1)))) [] [] 0 with
      er | bs
    · rw [hloop] at hs
      cases hs
    · rw [hloop] at hs
      have hout : out.batches = bs := by
        have := Except.ok.inj hs
        rw [← this]
      rw [hout] at hb
      rcases send_loop_mem limit pfx queue tid _ [] [] 0 bs hloop b hb e he with
        ⟨b', hb', _⟩ | he' | ⟨it', _, sz, hsz⟩
      · simp at hb'
      · simp at he'
      · simp only [send_entry] at hsz
        rcases hrd : read_temp_state queue it'.1 it'.2.1 with er2 | state
        · rw [hrd] at hsz
          cases hsz
        · rw [hrd] at hsz
          obtain ⟨h1', _⟩ := Prod.mk.inj (Except.ok.inj hsz)
          obtain ⟨hk1, hk2⟩ := Prod.mk.inj h1'
          refine ⟨⟨it'.2.2, hk1.symm⟩, ?_⟩
          rw [← hk2, ← ht, List.take_left]

/-- C4 witness: a hot-branch miss stores the enveloped value under the hot
key, the returned tid is the delta tid, and a queued commit is stored
enveloped under the key built from the commit tid. -/
theorem claim_C4_witness :
    (∀ w ∈ (load ⟨"q", some (50, 40), [(7, 44)], [], 50, 10⟩ [[]]
        (fun _ => (some [1, 2], 44)) 7).writes,
      w.2.1 = state_key "q" 44 7 ∧ (w.2.2).take 8 = p64 44) ∧
    (∀ s rt, (load ⟨"q", some (50, 40), [(7, 44)], [], 50, 10⟩ [[]]
        (fun _ => (some [1, 2], 44)) 7).result = .ok (s, rt) → rt = 44) ∧
    (∀ b ∈ ({ batches := [[(state_key "q" 77 3, p64 77 ++ [9, 9])]],
              tiers := [[(state_key "q" 77 3, p64 77 ++ [9, 9])]] } : SendOut).batches,
      ∀ e ∈ b, (∃ o, e.1 = state_key "q" (u64 (p64 77)) o) ∧ e.2.take 8 = p64 77) :=
  claim_C4_value_envelope ⟨"q", some (50, 40), [(7, 44)], [], 50, 10⟩ [[]]
    (fun _ => (some [1, 2], 44)) 7 44 50 40 "q" 100 [[]] [9, 9] [(3, 0, 2)] (p64 77)
    { batches := [[(state_key "q" 77 3, p64 77 ++ [9, 9])]],
      tiers := [[(state_key "q" 77 3, p64 77 ++ [9, 9])]] }
    rfl (by decide) (by decide) (by decide) (by decide)

/-- C4 counterexample: with checkpoints `(100, 90)` and
`delta_after1 = {42: 95}`, a load that hits the `delta_after1` key
promotes the original bytes to the cp0 key `p:state:100:42` in every tier:
the value stored under that key encodes tid 95, not the key's tid
component 100 — so the claim's "including after promotion" is false. -/
theorem claim_C4_counterexample :
    (load ⟨"p", some (100, 90), [], [(42, 95)], 100, 10⟩
        [[(state_key "p" 95 42, p64 95 ++ [83])]] (fun _ => (none, 0)) 42).writes =
      [(0, state_key "p" 100 42, p64 95 ++ [83])] ∧
    u64 ((p64 95 ++ [83]).take 8) = 95 ∧ (95 : Nat) ≠ 100 ∧
    (load ⟨"p", some (100, 90), [], [(42, 95)], 100, 10⟩
        [[(state_key "p" 95 42, p64 95 ++ [83])]] (fun _ => (none, 0)) 42).result =
      .ok (some [83], 95) := by
  decide

/-- C5 (amended): the windowing invariant — with checkpoints `(cp0, cp1)`
set, every `delta_after0` value exceeds `cp0` and every `delta_after1`
value lies in `(cp1, cp0]` — is preserved by `after_poll` provided every
change tid delivered to the fast path exceeds `cp0` (the rebuild partition
guarantees it unconditionally, by construction), and by
`after_tpc_finish` provided the committed tid exceeds `cp0`.  Without
those bounds the fast path and `after_tpc_finish` insert the offending tid
unconditionally, see the counterexample. -/
theorem claim_C5_windowing (st : CacheState) (tiers : List Tier)
    (lcs : Nat → Nat → List (Nat × Nat)) (prev_tid : Option Nat) (new_tid : Nat)
    (changes : Option (List (Nat × Nat)))
    (st2 : CacheState) (tiers2 : List Tier) (queue : Bytes)
    (qc : List (Nat × Nat × Nat)) (limit : Nat) (tid : Bytes)
    (hw : window_ok st = true)
    (hch : ∀ cp0 cp1, st.checkpoints = some (cp0, cp1) →
      ∀ p ∈ changes.getD [], cp0 < p.2)
    (hw2 : window_ok st2 = true)
    (htid : ∀ cp0 cp1, st2.checkpoints = some (cp0, cp1) → cp0 < u64 tid) :
    window_ok (after_poll st tiers lcs prev_tid new_tid changes).st = true ∧
    window_ok (after_tpc_finish st2 tiers2 queue qc limit tid).1 = true := by
  constructor
  · rcases hm : marker_scan (checkpoints_key st.pfx) tiers.reverse with _ | found
    · -- adopt/initialize: both maps are empty
      rcases hcp : st.checkpoints with _ | ⟨c0, c1⟩ <;>
        simp [after_poll, hm, hcp, window_ok]
    · by_cases hf : some (if new_tid < found.1 then st.checkpoints.getD (new_tid, new_tid)
          else found) = st.checkpoints ∧ changes ≠ none ∧ prev_tid.getD 0 ≠ 0 ∧
          prev_tid.getD 0 ≤ st.current_tid ∧ st.current_tid ≤ new_tid
      · rw [(after_poll_fast st tiers lcs prev_tid new_tid changes found hm hf).1]
        rw [window_ok_iff] at hw ⊢
        intro cp0 cp1 hcp
        simp only at hcp
        obtain ⟨h0, h1⟩ := hw cp0 cp1 hcp
        refine ⟨?_, h1⟩
        exact apply_changes_max_gt cp0 (changes.getD []) st.delta_after0 h0
          (hch cp0 cp1 hcp)
      · obtain ⟨hcps, hd0, hd1, hcur, hpath⟩ :=
          after_poll_rebuild st tiers lcs prev_tid new_tid changes found hm hf
        rw [window_ok_iff]
        intro cp0 cp1 hcp
        rw [hcps] at hcp
        have hcpair :
            (if new_tid < found.1 then st.checkpoints.getD (new_tid, new_tid) else found) =
              (cp0, cp1) := by
          simpa using hcp
        rw [hd0, hd1, hcpair]
        by_cases hlt : (cp0, cp1).2 < new_tid
        · rw [if_pos hlt]
          exact partition_deltas_window cp0 cp1
            (build_change_dict (lcs (cp0, cp1).2 new_tid)) ([], [])
            (by intro p hp; cases hp) (by intro p hp; cases hp)
        · rw [if_neg hlt]
          exact ⟨fun p hp => absurd hp (List.not_mem_nil p),
            fun p hp => absurd hp (List.not_mem_nil p)⟩
  · rcases hcp : st2.checkpoints with _ | ⟨cp0, cp1⟩
    · simp [after_tpc_finish, hcp, hw2]
    · simp only [after_tpc_finish, hcp]
      rw [window_ok_iff] at hw2 ⊢
      intro c0 c1 hc
      simp only [hcp] at hc
      obtain ⟨rfl, rfl⟩ : cp0 = c0 ∧ cp1 = c1 := by simpa using hc
      obtain ⟨h0, h1⟩ := hw2 cp0 cp1 hcp
      refine ⟨?_, h1⟩
      intro p hp
      rcases foldl_upsert_mem (u64 tid) qc st2.delta_after0 p hp with h | h
      · exact h0 p h
      · rw [h]
        exact htid cp0 cp1 hcp

/-- C5 witness: a fast-path poll whose change tids exceed cp0 and a commit
whose tid exceeds cp0 both preserve the windowing invariant. -/
theorem claim_C5_witness :
    window_ok (after_poll ⟨"p", some (100, 100), [(3, 150)], [], 100, 10⟩
      [[(checkpoints_key "p", encode_checkpoints 100 100)]] (fun _ _ => [])
      (some 100) 120 (some [(4, 150)])).st = true ∧
    window_ok (after_tpc_finish ⟨"p", some (10, 10), [(3, 15)], [], 10, 10⟩
      [[]] [9] [(1, 0, 1)] 100 (p64 50)).1 = true :=
  claim_C5_windowing ⟨"p", some (100, 100), [(3, 150)], [], 100, 10⟩
    [[(checkpoints_key "p", encode_checkpoints 100 100)]] (fun _ _ => [])
    (some 100) 120 (some [(4, 150)])
    ⟨"p", some (10, 10), [(3, 15)], [], 10, 10⟩ [[]] [9] [(1, 0, 1)] 100 (p64 50)
    (by decide)
    (by
      intro cp0 cp1 h
      obtain ⟨rfl, rfl⟩ : 100 = cp0 ∧ 100 = cp1 := by simpa using h
      decide)
    (by decide)
    (by
      intro cp0 cp1 h
      obtain ⟨rfl, rfl⟩ : 10 = cp0 ∧ 10 = cp1 := by simpa using h
      decide)

/-- C5 counterexample: the fast path accepts `prev_tid < cp0` (the code
only requires `prev_tid ≤ current_tid`), so a change with
`prev_tid < tid ≤ cp0` — legitimate under the documented contract that
`changes` lists everything committed after `prev_tid` — is written into
`delta_after0` with a value not exceeding cp0, violating the claimed
invariant right after the fast path runs. -/
theorem claim_C5_counterexample :
    (after_poll ⟨"p", some (100, 100), [], [], 100, 10⟩
        [[(checkpoints_key "p", encode_checkpoints 100 100)]] (fun _ _ => [])
        (some 50) 100 (some [(7, 60)])).st.delta_after0 = [(7, 60)] ∧
    (after_poll ⟨"p", some (100, 100), [], [], 100, 10⟩
        [[(checkpoints_key "p", encode_checkpoints 100 100)]] (fun _ _ => [])
        (some 50) 100 (some [(7, 60)])).st.checkpoints = some (100, 100) ∧
    (60 : Nat) ≤ 100 ∧
    window_ok (after_poll ⟨"p", some (100, 100), [], [], 100, 10⟩
        [[(checkpoints_key "p", encode_checkpoints 100 100)]] (fun _ _ => [])
        (some 50) 100 (some [(7, 60)])).st = false := by
  decide

/-- C2: when no tier yields a valid checkpoint marker, `after_poll` adopts
`(new_tid, new_tid)`, clears both delta maps, sets
`current_tid = new_tid`, writes to every tier the previous checkpoints if
the instance had them (else the fresh pair), and returns without invoking
the shift suggestion — regardless of `prev_tid` and `changes`. -/
theorem claim_C2_after_poll_no_marker (st : CacheState) (tiers : List Tier)
    (lc : Nat → Nat → List (Nat × Nat)) (prev_tid : Option Nat) (new_tid : Nat)
    (changes : Option (List (Nat × Nat)))
    (h : marker_scan (checkpoints_key st.pfx) tiers.reverse = none) :
    after_poll st tiers lc prev_tid new_tid changes =
      { st := { st with checkpoints := some (new_tid, new_tid), delta_after0 := [],
                        delta_after1 := [], current_tid := new_tid },
        tiers := set_all tiers (checkpoints_key st.pfx)
          (match st.checkpoints with
           | none => encode_checkpoints new_tid new_tid
           | some c => encode_checkpoints c.1 c.2),
        path := .init, suggested := false } := by
  rcases hcp : st.checkpoints with _ | ⟨c0, c1⟩ <;> simp [after_poll, h, hcp]

/-- C2 witness: a concrete instance with previous checkpoints `(7, 5)` and
an empty tier adopts `(12, 12)` and reinstates `"7 5"`. -/
theorem claim_C2_witness :
    marker_scan (checkpoints_key "p") ([([] : Tier)].reverse) = none ∧
      after_poll ⟨"p", some (7, 5), [(1, 9)], [(2, 6)], 7, 10⟩ [[]] (fun _ _ => []) none 12 none =
        { st := ⟨"p", some (12, 12), [], [], 12, 10⟩,
          tiers := set_all [[]] (checkpoints_key "p") (encode_checkpoints 7 5),
          path := .init, suggested := false } :=
  ⟨by decide, claim_C2_after_poll_no_marker _ _ _ _ _ _ (by decide)⟩

/-- C7: `_suggest_shifted_checkpoints(tid, oversize)` does nothing when
`tid ≤ cp0`; otherwise it proposes `(tid, tid)` when oversize and
`(tid, cp0)` when not, and publishes the proposal to every tier exactly
when the first truthy marker (read global-first) is absent or
byte-for-byte equal to the encoding of the current checkpoints; the
instance state is returned unchanged in every case. -/
theorem claim_C7_suggest_shift (st : CacheState) (tiers : List Tier) (tid : Nat)
    (oversize : Bool) (cp0 cp1 : Nat) (h : st.checkpoints = some (cp0, cp1)) :
    (tid ≤ cp0 → suggest_shifted_checkpoints st tiers tid oversize = .ok (st, tiers, false)) ∧
    (cp0 < tid →
      ((raw_marker_scan (checkpoints_key st.pfx) tiers.reverse = none ∨
          raw_marker_scan (checkpoints_key st.pfx) tiers.reverse =
            some (encode_checkpoints cp0 cp1)) →
        suggest_shifted_checkpoints st tiers tid oversize =
          .ok (st, set_all tiers (checkpoints_key st.pfx)
            (if oversize then encode_checkpoints tid tid else encode_checkpoints tid cp0),
            true)) ∧
      (¬ (raw_marker_scan (checkpoints_key st.pfx) tiers.reverse = none ∨
          raw_marker_scan (checkpoints_key st.pfx) tiers.reverse =
            some (encode_checkpoints cp0 cp1)) →
        suggest_shifted_checkpoints st tiers tid oversize = .ok (st, tiers, false))) := by
  refine ⟨fun hle => ?_, fun hgt => ⟨fun hok => ?_, fun hbad => ?_⟩⟩
  · simp [suggest_shifted_checkpoints, h, hle]
  · have hn : ¬ tid ≤ cp0 := Nat.not_le.2 hgt
    simp only [suggest_shifted_checkpoints, h]
    simp [hn, hok]
  · have hn : ¬ tid ≤ cp0 := Nat.not_le.2 hgt
    simp only [suggest_shifted_checkpoints, h]
    simp [hn, hbad]

/-- C7 witness: with checkpoints `(10, 8)` and an empty tier, suggesting at
tid `12` (not oversize) publishes `"12 10"` and leaves the state alone. -/
theorem claim_C7_witness :
    (⟨"p", some (10, 8), [], [], 10, 5⟩ : CacheState).checkpoints = some (10, 8) ∧
      suggest_shifted_checkpoints ⟨"p", some (10, 8), [], [], 10, 5⟩ [[]] 12 false =
        .ok (⟨"p", some (10, 8), [], [], 10, 5⟩,
          set_all [[]] (checkpoints_key "p") (encode_checkpoints 12 10), true) :=
  ⟨rfl, ((claim_C7_suggest_shift ⟨"p", some (10, 8), [], [], 10, 5⟩ [[]] 12 false 10 8
    rfl).2 (by decide)).1 (by decide)⟩

/-- C10: `load` branches on the truthiness of the looked-up delta value, so
a `delta_after0` or `delta_after1` entry whose tid is `0` behaves exactly
as if the oid were absent from that map: the same keys are probed, the
same result is returned, and the same writes are performed. -/
theorem claim_C10_zero_delta_is_absent (st : CacheState) (tiers : List Tier)
    (lc : Nat → Option Bytes × Nat) (oid : Nat) :
    (alookup st.delta_after0 oid = some 0 →
      load st tiers lc oid =
        load { st with delta_after0 := erase_key st.delta_after0 oid } tiers lc oid) ∧
    (alookup st.delta_after1 oid = some 0 →
      load st tiers lc oid =
        load { st with delta_after1 := erase_key st.delta_after1 oid } tiers lc oid) := by
  constructor
  · intro h
    rcases hcp : st.checkpoints with _ | ⟨cp0, cp1⟩
    · simp [load, hcp]
    · simp [load, hcp, h, alookup_erase_key, check_tid_after_load]
  · intro h
    rcases hcp : st.checkpoints with _ | ⟨cp0, cp1⟩
    · simp [load, hcp]
    · simp only [load, hcp]
      rcases h0 : alookup st.delta_after0 oid with _ | t
      · simp [h0, h, hcp, alookup_erase_key, check_tid_after_load]
      · by_cases ht : t = 0
        · subst ht
          simp [h0, h, hcp, alookup_erase_key, check_tid_after_load]
        · simp [h0, ht, h, hcp, alookup_erase_key, check_tid_after_load]

/-- C10 witness: with `delta_after0 = [(42, 0)]` and `delta_after1 = [(42, 0)]`,
loading oid 42 behaves exactly as with the entries removed. -/
theorem claim_C10_witness :
    alookup ([(42, 0)] : List (Nat × Nat)) 42 = some 0 ∧
      load ⟨"p", some (9, 9), [(42, 0)], [(42, 0)], 9, 5⟩ [[]] (fun _ => (none, 0)) 42 =
        load { (⟨"p", some (9, 9), [(42, 0)], [(42, 0)], 9, 5⟩ : CacheState) with
               delta_after0 := erase_key [(42, 0)] 42 } [[]] (fun _ => (none, 0)) 42 :=
  ⟨by decide,
    (claim_C10_zero_delta_is_absent ⟨"p", some (9, 9), [(42, 0)], [(42, 0)], 9, 5⟩ [[]]
      (fun _ => (none, 0)) 42).1 (by decide)⟩

end StorageCache
